import Mathlib

/-!
Verification development for the meralco-rates scraper
(`meralco_rates/scraper.py`).  The Python source is shallowly embedded:
pure helpers become Lean functions over `List Char` / `String`,
floating-point amounts are modelled as exact rationals `ℚ`
(IEEE-754 rounding, infinities and NaN are outside the model; none of
the verified properties depend on them), Python exceptions become
`Except Unit`, and network traffic is passed in explicitly as values.
-/

namespace Meralco

/-! ## Python string primitives (ASCII model)

`str.strip()` with no argument removes the six ASCII whitespace
characters; `str.strip("()")` removes any run of parentheses at both
ends; `str.replace` rewrites non-overlapping occurrences left to right;
`str.lower` / `str.upper` act on ASCII letters. -/

def pyWs (c : Char) : Bool :=
  c = ' ' || c = '\t' || c = '\n' || c = '\r' || c = '\x0b' || c = '\x0c'

def trimLeftBy (p : Char → Bool) (l : List Char) : List Char :=
  l.dropWhile p

def trimBy (p : Char → Bool) (l : List Char) : List Char :=
  ((l.dropWhile p).reverse.dropWhile p).reverse

def pyStripL (l : List Char) : List Char := trimBy pyWs l

def isParenChar (c : Char) : Bool := c = '(' || c = ')'

/-- `str.strip("()")`. -/
def parenStripL (l : List Char) : List Char := trimBy isParenChar l

def isPrefixL : List Char → List Char → Bool
  | [], _ => true
  | _ :: _, [] => false
  | p :: ps, c :: cs => p = c && isPrefixL ps cs

def isSubstrL (pat : List Char) : List Char → Bool
  | [] => isPrefixL pat []
  | c :: cs => isPrefixL pat (c :: cs) || isSubstrL pat cs

def startsWithL (pat l : List Char) : Bool := isPrefixL pat l

def endsWithL (pat l : List Char) : Bool := isPrefixL pat.reverse l.reverse

/-- `str.replace(pat, rep)` for a non-empty `pat`: leftmost,
non-overlapping.  The fuel is bounded by the input length. -/
def replaceFuel (pat rep : List Char) : Nat → List Char → List Char
  | 0, s => s
  | _ + 1, [] => []
  | fuel + 1, c :: cs =>
    if pat ≠ [] && isPrefixL pat (c :: cs) then
      rep ++ replaceFuel pat rep fuel (List.drop (pat.length - 1) cs)
    else
      c :: replaceFuel pat rep fuel cs

def replaceL (s pat rep : List Char) : List Char :=
  replaceFuel pat rep s.length s

def pyLowerC (c : Char) : Char :=
  if 'A' ≤ c && c ≤ 'Z' then Char.ofNat (c.toNat + 32) else c

def pyUpperC (c : Char) : Char :=
  if 'a' ≤ c && c ≤ 'z' then Char.ofNat (c.toNat - 32) else c

def pyLowerL (l : List Char) : List Char := l.map pyLowerC

def pyUpperL (l : List Char) : List Char := l.map pyUpperC

def isDigitC (c : Char) : Bool := '0' ≤ c && c ≤ '9'

def digitsVal (l : List Char) : Nat :=
  l.foldl (fun n c => n * 10 + (c.toNat - 48)) 0

/-! ## Python `float()` (rational model)

Grammar accepted by `float(str)` restricted to finite decimal
literals: optional whitespace, optional sign, digit groups that may
contain single underscores between digits, optional fraction, optional
exponent.  (`inf` / `nan` are outside the rational model.) -/

/-- Consume a maximal leading digit group, where a single `_` may sit
between two digits (Python numeric-literal underscores).  Returns the
digits with underscores removed, and the rest of the input. -/
def takeDigitsUS : List Char → List Char × List Char
  | [] => ([], [])
  | c :: '_' :: d :: cs2 =>
    if isDigitC c then
      if isDigitC d then
        let r := takeDigitsUS (d :: cs2)
        (c :: r.1, r.2)
      else ([c], '_' :: d :: cs2)
    else ([], c :: '_' :: d :: cs2)
  | c :: cs =>
    if isDigitC c then
      let r := takeDigitsUS cs
      (c :: r.1, r.2)
    else ([], c :: cs)

/-- Powers of ten as rationals, for decimal exponents. -/
def qpow10 (e : Int) : ℚ :=
  if 0 ≤ e then ((10 : ℚ) ^ e.toNat) else 1 / ((10 : ℚ) ^ (-e).toNat)

/-- Parse an optional exponent part (`e`/`E`, optional sign, digit
group).  `none` means the whole literal is malformed. -/
def parseExpPart : List Char → Option (Int × List Char)
  | [] => some (0, [])
  | c :: cs =>
    if c = 'e' || c = 'E' then
      let signed : Int × List Char :=
        match cs with
        | '+' :: r => (1, r)
        | '-' :: r => (-1, r)
        | r => (1, r)
      let d := takeDigitsUS signed.2
      if d.1 = [] then none
      else some (signed.1 * (digitsVal d.1 : Int), d.2)
    else some (0, c :: cs)

/-- The body of a float literal after sign removal. -/
def parseFloatBody (l : List Char) : Option ℚ :=
  let ip := takeDigitsUS l
  match ip.2 with
  | '.' :: rest =>
    let fp := takeDigitsUS rest
    if ip.1 = [] && fp.1 = [] then none
    else
      match parseExpPart fp.2 with
      | none => none
      | some (e, rest2) =>
        if rest2 = [] then
          some ((((digitsVal ip.1 : ℚ) * qpow10 (fp.1.length) +
                  (digitsVal fp.1 : ℚ)) / qpow10 (fp.1.length)) * qpow10 e)
        else none
  | rest =>
    if ip.1 = [] then none
    else
      match parseExpPart rest with
      | none => none
      | some (e, rest2) =>
        if rest2 = [] then some ((digitsVal ip.1 : ℚ) * qpow10 e)
        else none

/-- `float(s)` on a character list: strip whitespace, optional sign,
then the literal body.  `none` models `ValueError`. -/
def parseFloatL (l : List Char) : Option ℚ :=
  match pyStripL l with
  | [] => none
  | '+' :: rest => parseFloatBody rest
  | '-' :: rest => (parseFloatBody rest).map (fun q => -q)
  | rest => parseFloatBody rest

def parseFloatS (s : String) : Option ℚ := parseFloatL s.data

/-! ## `parse_negative` (scraper.py lines 18-29)

```python
def parse_negative(val_str: str) -> float:
    if not val_str:
        return 0.0
    val_str = val_str.replace("P", "").replace(",", "").strip()
    if val_str.startswith("(") and val_str.endswith(")"):
        num_str = val_str.strip("()")
        return -float(num_str) if num_str else 0.0
    try:
        return float(val_str)
    except ValueError:
        return 0.0
```

Note that the `float` call in the parenthesized branch sits outside
the `try`, so a `ValueError` raised there escapes; `.error ()` models
that exception. -/

def normNeg (s : String) : List Char :=
  pyStripL (replaceL (replaceL s.data ['P'] []) [','] [])

def parse_negative (val_str : String) : Except Unit ℚ :=
  if val_str = "" then .ok 0
  else
    let t := normNeg val_str
    if startsWithL ['('] t && endsWithL [')'] t then
      let num := parenStripL t
      if num = [] then .ok 0
      else
        match parseFloatL num with
        | some q => .ok (-q)
        | none => .error ()
    else
      match parseFloatL t with
      | some q => .ok q
      | none => .ok 0

instance instExceptDecEq {ε α : Type} [DecidableEq ε] [DecidableEq α] :
    DecidableEq (Except ε α)
  | .ok a, .ok b =>
    if h : a = b then .isTrue (by rw [h])
    else .isFalse (by intro he; cases he; exact h rfl)
  | .ok _, .error _ => .isFalse (by intro h; cases h)
  | .error _, .ok _ => .isFalse (by intro h; cases h)
  | .error a, .error b =>
    if h : a = b then .isTrue (by rw [h])
    else .isFalse (by intro he; cases he; exact h rfl)

/-- `True` exactly on `Except.ok`, the "no exception was raised"
observation. -/
def exOk {ε α : Type} : Except ε α → Bool
  | .ok _ => true
  | .error _ => false

/-- The exact condition under which `parse_negative` raises: the
normalized text is parenthesized with non-empty inner text that
`float` rejects. -/
def parenBad (s : String) : Bool :=
  s ≠ "" &&
    (let t := normNeg s
     startsWithL ['('] t && endsWithL [')'] t &&
       parenStripL t ≠ [] && (parseFloatL (parenStripL t)).isNone)

/-! ## Column mappings and `_val` (scraper.py lines 438-456)

A Python `col_map` value is either a single column index or a list of
indices to be summed; `col_map.get(key, -1)` yields `-1` for an absent
key.  Indices are `Int` because `-1` is the sentinel and arbitrary
mappings may hold any integer. -/

inductive IdxVal where
  | one (i : Int)
  | many (l : List Int)
deriving DecidableEq

def dictGet (entries : List (String × IdxVal)) (key : String) : Option IdxVal :=
  match entries.find? (fun e => e.1 = key) with
  | some e => some e.2
  | none => none

/-- Python `dict` assignment: overwrite in place, else append. -/
def dictInsert (entries : List (String × IdxVal)) (key : String) (v : IdxVal) :
    List (String × IdxVal) :=
  if (entries.find? (fun e => e.1 = key)).isSome then
    entries.map (fun e => if e.1 = key then (key, v) else e)
  else entries ++ [(key, v)]

/-- Python list indexing `row[i]` with end-relative negative indices;
`.error` models `IndexError`. -/
def pyIndex (row : List String) (i : Int) : Except Unit String :=
  if 0 ≤ i then
    if i < (row.length : Int) then .ok (row.getD i.toNat "") else .error ()
  else if 0 ≤ (row.length : Int) + i then
    .ok (row.getD ((row.length : Int) + i).toNat "")
  else .error ()

/-- `v.replace("%", "")` applied for percent-bearing fields. -/
def stripPercent (v : String) (isPercent : Bool) : String :=
  if isPercent then ⟨replaceL v.data ['%'] []⟩ else v

/-- The list-valued branch of `_val`:
`for ix in idx_val: if ix != -1 and ix < len(clean_row): total += parse_negative(v)`. -/
def pyValManyGo (row : List String) (isPercent : Bool) (acc : ℚ) :
    List Int → Except Unit ℚ
  | [] => .ok acc
  | ix :: rest =>
    if ix ≠ -1 && ix < (row.length : Int) then
      match pyIndex row ix with
      | .error e => .error e
      | .ok v =>
        match parse_negative (stripPercent v isPercent) with
        | .error e => .error e
        | .ok q => pyValManyGo row isPercent (acc + q) rest
    else pyValManyGo row isPercent acc rest

/-- `_val(key, is_percent)` from `extract_residential_rates`. -/
def pyVal (entries : List (String × IdxVal)) (cleanRow : List String)
    (key : String) (isPercent : Bool) : Except Unit ℚ :=
  match (dictGet entries key).getD (.one (-1)) with
  | .many l => pyValManyGo cleanRow isPercent 0 l
  | .one i =>
    if i = -1 || (cleanRow.length : Int) ≤ i then .ok 0
    else
      match pyIndex cleanRow i with
      | .error e => .error e
      | .ok v => parse_negative (stripPercent v isPercent)

/-! ## Bracket detection and bounds (scraper.py lines 415-419, 468-478) -/

/-- Case-insensitive literal prefix; returns the rest on success. -/
def matchCI : List Char → List Char → Option (List Char)
  | [], l => some l
  | _ :: _, [] => none
  | p :: ps, c :: cs => if pyLowerC p = pyLowerC c then matchCI ps cs else none

/-- `\d+` as a prefix; returns the rest on success. -/
def digitsPlus (l : List Char) : Option (List Char) :=
  if l.takeWhile isDigitC = [] then none else some (l.dropWhile isDigitC)

/-- `^\d+\s*TO\s*\d+\s*KWH` (IGNORECASE). -/
def bracketAlt1 (l : List Char) : Bool :=
  match digitsPlus l with
  | none => false
  | some r1 =>
    match matchCI ['T', 'O'] (r1.dropWhile pyWs) with
    | none => false
    | some r2 =>
      match digitsPlus (r2.dropWhile pyWs) with
      | none => false
      | some r3 => (matchCI ['K', 'W', 'H'] (r3.dropWhile pyWs)).isSome

/-- `^OVER\s*\d+\s*KWH` (IGNORECASE). -/
def bracketAlt2 (l : List Char) : Bool :=
  match matchCI ['O', 'V', 'E', 'R'] l with
  | none => false
  | some r1 =>
    match digitsPlus (r1.dropWhile pyWs) with
    | none => false
    | some r2 => (matchCI ['K', 'W', 'H'] (r2.dropWhile pyWs)).isSome

/-- `re.match` of the consumption-bracket pattern on a cleaned first
cell. -/
def isBracketCell (s : String) : Bool :=
  bracketAlt1 s.data || bracketAlt2 s.data

/-- `re.findall(r"\d+", s)` evaluated as numbers: maximal digit runs. -/
def findNumsAcc (cur : List Char) (acc : List Nat) : List Char → List Nat
  | [] => if cur = [] then acc else acc ++ [digitsVal cur]
  | c :: cs =>
    if isDigitC c then findNumsAcc (cur ++ [c]) acc cs
    else if cur = [] then findNumsAcc [] acc cs
    else findNumsAcc [] (acc ++ [digitsVal cur]) cs

def findNums (l : List Char) : List Nat := findNumsAcc [] [] l

/-- Bracket-bounds computation (lines 468-478): `OVER` with at least
one number gives `(n+1, None)`; two numbers give `(a, b)`; otherwise
the initializers `(0, None)` survive.  (`bracket_upper` and `nums`
are written out at each use.) -/
def parseBracket (s : String) : Nat × Option Nat :=
  if isSubstrL ['O', 'V', 'E', 'R'] (pyUpperL s.data) &&
      findNums (pyUpperL s.data) ≠ [] then
    ((findNums (pyUpperL s.data)).headI + 1, none)
  else if 2 ≤ (findNums (pyUpperL s.data)).length then
    ((findNums (pyUpperL s.data)).headI, some ((findNums (pyUpperL s.data)).getD 1 0))
  else (0, none)

/-! ## Column semantics mapper (scraper.py lines 299-379) -/

def cellTruthy : Option String → Bool
  | none => false
  | some s => s ≠ ""

/-- Concatenation of column `i`'s text over the first 4 rows, each
truthy cell prefixed by a space. -/
def headerConcat (table : List (List (Option String))) (i : Nat) : List Char :=
  (table.take 4).foldl
    (fun acc row =>
      match row.getD i none with
      | some c => if c ≠ "" then acc ++ ' ' :: c.data else acc
      | none => acc)
    []

/-- Single-space collapse of `\s+` runs (`re.sub(r"\s+", " ", s)`). -/
def collapseWsGo (inWs : Bool) : List Char → List Char
  | [] => []
  | c :: cs =>
    if pyWs c then
      if inWs then collapseWsGo true cs else ' ' :: collapseWsGo true cs
    else c :: collapseWsGo false cs

/-- Header normalization: lowercase, `\n`→space, strip everything
outside `[a-z0-9\s]`, collapse whitespace, trim. -/
def normHeader (l : List Char) : List Char :=
  let s1 := replaceL (pyLowerL l) ['\n'] [' ']
  let s2 := s1.filter (fun c => ('a' ≤ c && c ≤ 'z') || isDigitC c || pyWs c)
  pyStripL (collapseWsGo false s2)

def containsStr (pat : String) (t : List Char) : Bool := isSubstrL pat.data t

/-- Result of the ordered `elif` classification chain: a canonical
key, the `reset` arm with no sub-type (which assigns nothing), or no
arm at all. -/
inductive HeaderClass where
  | mapped (key : String)
  | resetUnmatched
  | unmatched
deriving DecidableEq

def classifyHeader (t : List Char) : HeaderClass :=
  if containsStr "generation" t then .mapped "generation_charge"
  else if containsStr "transmission" t then .mapped "transmission_charge"
  else if containsStr "system loss" t then .mapped "system_loss_charge"
  else if containsStr "distribution" t then .mapped "distribution_charge"
  else if containsStr "supply" t then .mapped "supply_charge"
  else if containsStr "metering" t then .mapped "metering_charge"
  else if containsStr "awat" t then .mapped "awat_charge"
  else if containsStr "reset" t then
    if containsStr "onetime" t || containsStr "one time" t then
      .mapped "one_time_reset_fee_adjustment"
    else if containsStr "regulatory" t then
      .mapped "regulatory_reset_fees_adjustment"
    else .resetUnmatched
  else if containsStr "lifeline" t && containsStr "subsidy" t then
    .mapped "lifeline_rate_subsidy"
  else if containsStr "lifeline" t && containsStr "discount" t then
    .mapped "applicable_discount_percent"
  else if containsStr "senior citizen" t then .mapped "senior_citizen_subsidy"
  else if containsStr "current rpt" t then .mapped "current_rpt_charge"
  else if (containsStr "ucme" t || containsStr "uc me" t) && containsStr "npc" t then
    .mapped "uc_me_npc_spug"
  else if (containsStr "ucme" t || containsStr "uc me" t) && containsStr "red" t then
    .mapped "uc_me_red_ci"
  else if containsStr "uc ec" t || containsStr "ucec" t then .mapped "uc_ec"
  else if containsStr "uc sd" t || containsStr "ucsd" t then .mapped "uc_sd"
  else if containsStr "fitall" t || containsStr "fit all" t then .mapped "fit_all"
  else if containsStr "gea" t then .mapped "gea_all"
  else .unmatched

/-- The fixed noise filter applied before `unmapped_headers`
accumulation. -/
def isNoise (t : List Char) : Bool :=
  (t = "per kw".data || t = "per custmo".data || t = "penalty".data ||
    t = "disc".data) ||
    containsStr "power factor" t || containsStr "summary schedule" t

structure ColMap where
  entries : List (String × IdxVal)
  unmapped : List String
deriving DecidableEq

def classifyStep (m : ColMap) (i : Nat) (t : List Char) : ColMap :=
  if t = [] then m
  else
    match classifyHeader t with
    | .mapped k => { m with entries := dictInsert m.entries k (.one (i : Int)) }
    | .resetUnmatched => m
    | .unmatched =>
      if isNoise t then m else { m with unmapped := m.unmapped ++ [⟨t⟩] }

/-- The normalized per-column header strings (empty when the guard
`not table or not table[0]` fires). -/
def normalizedHeaders (table : List (List (Option String))) : List (List Char) :=
  match table with
  | [] => []
  | r0 :: _ =>
    if r0 = [] then []
    else (List.range r0.length).map (fun i => normHeader (headerConcat table i))

/-- `for i, text in enumerate(normalized)` -/
def classifyFold (m : ColMap) (i : Nat) : List (List Char) → ColMap
  | [] => m
  | t :: ts => classifyFold (classifyStep m i t) (i + 1) ts

/-- `_build_column_index_map`. -/
def buildColMap (table : List (List (Option String))) : ColMap :=
  classifyFold ⟨[], []⟩ 0 (normalizedHeaders table)

/-! ## Row parser & validator (scraper.py lines 381-516) -/

abbrev Cell := Option String
abbrev Row := List Cell
abbrev Table := List Row
abbrev Page := List Table

/-- `cell.replace("\n", " ").strip() if cell else ""`. -/
def cleanCell : Cell → String
  | none => ""
  | some c => ⟨pyStripL (replaceL c.data ['\n'] [' '])⟩

structure Rate where
  consumption_bracket : String
  min_kwh : Nat
  max_kwh : Option Nat
  generation_charge : ℚ
  transmission_charge : ℚ
  system_loss_charge : ℚ
  distribution_charge : ℚ
  supply_charge : ℚ
  metering_charge : ℚ
  awat_charge : ℚ
  regulatory_reset_fees_adjustment : ℚ
  one_time_reset_fee_adjustment : ℚ
  lifeline_rate_subsidy_per_kwh : ℚ
  lifeline_applicable_discount_percent : ℚ
  senior_citizen_subsidy : ℚ
  current_rpt_charge : ℚ
  uc_me_npc_spug : ℚ
  uc_me_red_ci : ℚ
  uc_ec : ℚ
  uc_sd : ℚ
  fit_all : ℚ
  gea_all : ℚ
deriving DecidableEq, Inhabited

/-- Ghost diagnostics mirroring the `logger.error` calls inside the
row loop. -/
inductive Diag where
  | missingMapping (keys : List String)
  | zeroCore
  | rowException
deriving DecidableEq

structure ExtState where
  rates : List Rate
  diags : List Diag
  stop : Bool
deriving DecidableEq

def requiredCore : List String :=
  ["generation_charge", "transmission_charge", "system_loss_charge",
   "distribution_charge", "supply_charge", "metering_charge",
   "lifeline_rate_subsidy", "applicable_discount_percent"]

/-- The body of the `try` block for a bracket row after the
required-mapping check: `_val` evaluations in source order, the
zero-core sanity gate (`.ok none` = row rejected there), bracket
bounds, and record assembly. -/
def parseRowRate (entries : List (String × IdxVal)) (cleanRow : List String) :
    Except Unit (Option Rate) := do
  let gen ← pyVal entries cleanRow "generation_charge" false
  let dist ← pyVal entries cleanRow "distribution_charge" false
  let sysLoss ← pyVal entries cleanRow "system_loss_charge" false
  if gen = 0 ∨ dist = 0 ∨ sysLoss = 0 then
    return none
  else
    let trans ← pyVal entries cleanRow "transmission_charge" false
    let supply ← pyVal entries cleanRow "supply_charge" false
    let metering ← pyVal entries cleanRow "metering_charge" false
    let awat ← pyVal entries cleanRow "awat_charge" false
    let reg ← pyVal entries cleanRow "regulatory_reset_fees_adjustment" false
    let onetime ← pyVal entries cleanRow "one_time_reset_fee_adjustment" false
    let lifeSub ← pyVal entries cleanRow "lifeline_rate_subsidy" false
    let lifeDisc ← pyVal entries cleanRow "applicable_discount_percent" true
    let senior ← pyVal entries cleanRow "senior_citizen_subsidy" false
    let rpt ← pyVal entries cleanRow "current_rpt_charge" false
    let npc ← pyVal entries cleanRow "uc_me_npc_spug" false
    let red ← pyVal entries cleanRow "uc_me_red_ci" false
    let ucec ← pyVal entries cleanRow "uc_ec" false
    let ucsd ← pyVal entries cleanRow "uc_sd" false
    let fitall ← pyVal entries cleanRow "fit_all" false
    let gea ← pyVal entries cleanRow "gea_all" false
    return some
      { consumption_bracket := cleanRow.headI
        min_kwh := (parseBracket cleanRow.headI).1
        max_kwh := (parseBracket cleanRow.headI).2
        generation_charge := gen
        transmission_charge := trans
        system_loss_charge := sysLoss
        distribution_charge := dist
        supply_charge := supply
        metering_charge := metering
        awat_charge := awat
        regulatory_reset_fees_adjustment := reg
        one_time_reset_fee_adjustment := onetime
        lifeline_rate_subsidy_per_kwh := lifeSub
        lifeline_applicable_discount_percent := lifeDisc
        senior_citizen_subsidy := senior
        current_rpt_charge := rpt
        uc_me_npc_spug := npc
        uc_me_red_ci := red
        uc_ec := ucec
        uc_sd := ucsd
        fit_all := fitall
        gea_all := gea }

/-- One iteration of `for row in table` (lines 403-514).  Here
`clean_row[0]` is written `cleanCell row.headI`, equal to
`(row.map cleanCell).headI`. -/
def processRow (cm : ColMap) (s : ExtState) (row : Row) : ExtState :=
  if row = [] || !(row.any cellTruthy) then s
  else if startsWithL "GENERAL SERVICE".data (pyUpperL (cleanCell row.headI).data) then
    { s with stop := true }
  else if isBracketCell (cleanCell row.headI) then
    if requiredCore.filter (fun k => (dictGet cm.entries k).isNone) ≠ [] then
      { s with diags := s.diags ++
        [.missingMapping (requiredCore.filter (fun k => (dictGet cm.entries k).isNone))] }
    else
      match parseRowRate cm.entries (row.map cleanCell) with
      | .error _ => { s with diags := s.diags ++ [.rowException] }
      | .ok none => { s with diags := s.diags ++ [.zeroCore] }
      | .ok (some r) => { s with rates := s.rates ++ [r] }
  else s

/-- The row loop; the `GENERAL SERVICE` `break` is realized because a
set `stop` flag freezes the state. -/
def processRows (cm : ColMap) (s : ExtState) : List Row → ExtState
  | [] => s
  | r :: rs => if s.stop then s else processRows cm (processRow cm s r) rs

def processTable (s : ExtState) (t : Table) : ExtState :=
  if s.stop then s else processRows (buildColMap t) s t

def processPage (s : ExtState) (p : Page) : ExtState :=
  if s.stop then s else p.foldl processTable s

def extractInit : ExtState := ⟨[], [], false⟩

def extractSt (pdf : List Page) : ExtState := pdf.foldl processPage extractInit

/-- `extract_residential_rates` observable output. -/
def extractRates (pdf : List Page) : List Rate := (extractSt pdf).rates

/-- A row whose first cleaned cell upper-cases to a
`GENERAL SERVICE` prefix (after passing the emptiness guard). -/
def isMarkerRow (row : Row) : Bool :=
  !(row = [] || !(row.any cellTruthy)) &&
    startsWithL "GENERAL SERVICE".data (pyUpperL (cleanCell row.headI).data)

/-- A row the loop treats as a bracket data row. -/
def isBracketRowB (row : Row) : Bool :=
  !(row = [] || !(row.any cellTruthy)) && !(isMarkerRow row) &&
    isBracketCell (cleanCell row.headI)

/-- Bracket rows the loop actually reaches: those before the first
terminal marker. -/
def reachedBracketCount (t : Table) : Nat :=
  ((t.takeWhile (fun r => !(isMarkerRow r))).filter isBracketRowB).length

/-! ## HTML / URL scanners (the `re` patterns of scraper.py)

Each scanner implements the leftmost-match semantics of one concrete
Python regex, with greedy / lazy behaviour reproduced for that
pattern. -/

def startsWithCI (pat : String) (l : List Char) : Bool :=
  isPrefixL (pyLowerL pat.data) (pyLowerL (l.take pat.data.length))

/-- `[^'\" >]` — the character class of a PDF href target. -/
def isRunChar (c : Char) : Bool :=
  !(c = '\'' || c = '"' || c = ' ' || c = '>')

/-- Largest `p` such that `".pdf"` (case-insensitive) occurs at
offset `p`: the greedy `[^'\" >]+` backtracks to the last `.pdf`. -/
def lastPdfSplit : List Char → Option Nat
  | [] => none
  | c :: rest =>
    match lastPdfSplit rest with
    | some p => some (p + 1)
    | none => if startsWithCI ".pdf" (c :: rest) then some 0 else none

/-- `re.findall(r"href=['\"]?([^'\" >]+\.pdf)['\"]?", html, re.IGNORECASE)`. -/
def findPdfUrlsGo : Nat → List Char → List String
  | 0, _ => []
  | _ + 1, [] => []
  | fuel + 1, s =>
    if startsWithCI "href=" s then
      let afterHref := s.drop 5
      let hasQuote := match afterHref with
        | c :: _ => c = '\'' || c = '"'
        | [] => false
      let afterQuote := if hasQuote then afterHref.drop 1 else afterHref
      let run := afterQuote.takeWhile isRunChar
      match lastPdfSplit run with
      | some p =>
        if 1 ≤ p then
          let cap := run.take (p + 4)
          let afterCap := afterQuote.drop (p + 4)
          let skipQ : Nat := match afterCap with
            | c :: _ => if c = '\'' || c = '"' then 1 else 0
            | [] => 0
          ⟨cap⟩ :: findPdfUrlsGo fuel (afterCap.drop skipQ)
        else findPdfUrlsGo fuel s.tail
      | none => findPdfUrlsGo fuel s.tail
    else findPdfUrlsGo fuel s.tail

def findPdfUrls (html : String) : List String :=
  findPdfUrlsGo (html.data.length + 1) html.data

/-- The lazy `(.*?)</a>` tail: shortest newline-free text up to the
first `</a>`. -/
def firstCloseA : List Char → Option (List Char × List Char)
  | [] => none
  | c :: cs =>
    if startsWithL "</a>".data (c :: cs) then some ([], (c :: cs).drop 4)
    else if c = '\n' then none
    else
      match firstCloseA cs with
      | some (txt, rem) => some (c :: txt, rem)
      | none => none

/-- Continuation of the node-link pattern after one candidate `href=`
occurrence: `['\"](/node/\d+)['\"][^>]*>(.*?)</a>`. -/
def nodeLinkTail (afterHref : List Char) : Option (String × String × List Char) :=
  match afterHref with
  | q1 :: r1 =>
    if q1 = '\'' || q1 = '"' then
      if startsWithL "/node/".data r1 then
        let r2 := r1.drop 6
        let ds := r2.takeWhile isDigitC
        if ds ≠ [] then
          match r2.drop ds.length with
          | q2 :: r4 =>
            if q2 = '\'' || q2 = '"' then
              let run2 := r4.takeWhile (fun c => !(c = '>'))
              match r4.drop run2.length with
              | '>' :: r6 =>
                match firstCloseA r6 with
                | some (txt, rem) => some (⟨"/node/".data ++ ds⟩, ⟨txt⟩, rem)
                | none => none
              | _ => none
            else none
          | [] => none
        else none
      else none
    else none
  | [] => none

/-- Try the candidate `href=` offsets of one `<a` tag in decreasing
order: the greedy `[^>]+` prefers the last occurrence and backtracks
leftwards. -/
def tryHrefCandidates (tagRest : List Char) :
    List Nat → Option (String × String × List Char)
  | [] => none
  | p :: ps =>
    match nodeLinkTail (tagRest.drop (p + 5)) with
    | some r => some r
    | none => tryHrefCandidates tagRest ps

/-- One attempted match of
`<a[^>]+href=['\"](/node/\d+)['\"][^>]*>(.*?)</a>` at the current
position. -/
def matchNodeAnchor (s : List Char) : Option (String × String × List Char) :=
  if startsWithL "<a".data s then
    let tagRest := s.drop 2
    let run := tagRest.takeWhile (fun c => !(c = '>'))
    let cands := ((List.range (run.length + 1)).filter
      (fun p => 1 ≤ p && p + 5 ≤ run.length &&
        startsWithL "href=".data (run.drop p))).reverse
    tryHrefCandidates tagRest cands
  else none

/-- `re.findall` of the node-link pattern: leftmost matches, scanning
resumes after each match. -/
def findNodeLinksGo : Nat → List Char → List (String × String)
  | 0, _ => []
  | _ + 1, [] => []
  | fuel + 1, s =>
    match matchNodeAnchor s with
    | some (href, txt, rem) => (href, txt) :: findNodeLinksGo fuel rem
    | none => findNodeLinksGo fuel s.tail

def findNodeLinks (html : String) : List (String × String) :=
  findNodeLinksGo (html.data.length + 1) html.data

/-- `re.search(r"/(202[0-9])-(\d{2})/", url)`: first match, captures
`(year, month)` as strings. -/
def searchYYYYMM : List Char → Option (String × String)
  | [] => none
  | c :: rest =>
    match c :: rest with
    | '/' :: '2' :: '0' :: '2' :: d :: '-' :: m1 :: m2 :: '/' :: _ =>
      if isDigitC d && isDigitC m1 && isDigitC m2 then
        some (⟨['2', '0', '2', d]⟩, ⟨[m1, m2]⟩)
      else searchYYYYMM rest
    | _ => searchYYYYMM rest

/-- `re.search(r"/(\d{2})-(202[0-9])_", url)`: captures
`(month, year)`. -/
def searchMMYYYY : List Char → Option (String × String)
  | [] => none
  | c :: rest =>
    match c :: rest with
    | '/' :: m1 :: m2 :: '-' :: '2' :: '0' :: '2' :: d :: '_' :: _ =>
      if isDigitC m1 && isDigitC m2 && isDigitC d then
        some (⟨[m1, m2]⟩, ⟨['2', '0', '2', d]⟩)
      else searchMMYYYY rest
    | _ => searchMMYYYY rest

/-- The lazy `(.*?)</title>` tail (IGNORECASE): shortest newline-free
text up to the first `</title>`. -/
def titleClose : List Char → Option (List Char)
  | [] => none
  | c :: cs =>
    if startsWithCI "</title>" (c :: cs) then some []
    else if c = '\n' then none
    else
      match titleClose cs with
      | some t => some (c :: t)
      | none => none

/-- `re.search(r"<title>(.*?)</title>", html, re.IGNORECASE)`. -/
def searchTitle : List Char → Option (List Char)
  | [] => none
  | c :: cs =>
    if startsWithCI "<title>" (c :: cs) then
      match titleClose ((c :: cs).drop 7) with
      | some t => some t
      | none => searchTitle cs
    else searchTitle cs

def monthNamesFull : List (String × Nat) :=
  [("January", 1), ("February", 2), ("March", 3), ("April", 4), ("May", 5),
   ("June", 6), ("July", 7), ("August", 8), ("September", 9), ("October", 10),
   ("November", 11), ("December", 12)]

def monthAbbrevs : List (String × Nat) :=
  [("Jan", 1), ("Feb", 2), ("Mar", 3), ("Apr", 4), ("May", 5), ("Jun", 6),
   ("Jul", 7), ("Aug", 8), ("Sep", 9), ("Oct", 10), ("Nov", 11), ("Dec", 12)]

def tryNamesAt (names : List (String × Nat)) (s : List Char) :
    Option (Nat × List Char) :=
  match names with
  | [] => none
  | (nm, k) :: tl =>
    if startsWithCI nm s then some (k, s.drop nm.data.length) else tryNamesAt tl s

/-- Four decimal digits (`\d{4}`) as a year value. -/
def fourDigits : List Char → Option Nat
  | d1 :: d2 :: d3 :: d4 :: _ =>
    if isDigitC d1 && isDigitC d2 && isDigitC d3 && isDigitC d4 then
      some (digitsVal [d1, d2, d3, d4])
    else none
  | _ => none

/-- `re.search(r"(January|...|December)\s+(\d{4})", text, re.IGNORECASE)`
followed by `strptime`: yields `(month number, year)`. -/
def searchMonthNameYear : List Char → Option (Nat × Nat)
  | [] => none
  | c :: rest =>
    match tryNamesAt monthNamesFull (c :: rest) with
    | some (k, after) =>
      let ws := after.takeWhile pyWs
      if ws ≠ [] then
        match fourDigits (after.drop ws.length) with
        | some y => some (k, y)
        | none => searchMonthNameYear rest
      else searchMonthNameYear rest
    | none => searchMonthNameYear rest

def isAsciiLetter (c : Char) : Bool :=
  ('a' ≤ c && c ≤ 'z') || ('A' ≤ c && c ≤ 'Z')

/-- `re.search(r"(Jan|...|Dec)[a-z]* (\d{4})", pubDate, re.IGNORECASE)`
(`[a-z]` matches both cases under IGNORECASE, then one literal
space). -/
def searchAbbrevMonthYear : List Char → Option (Nat × Nat)
  | [] => none
  | c :: rest =>
    match tryNamesAt monthAbbrevs (c :: rest) with
    | some (k, after) =>
      let letters := after.takeWhile isAsciiLetter
      match after.drop letters.length with
      | ' ' :: tl =>
        match fourDigits tl with
        | some y => some (k, y)
        | none => searchAbbrevMonthYear rest
      | _ => searchAbbrevMonthYear rest
    | none => searchAbbrevMonthYear rest

/-- Decimal rendering of a natural number (fuel-structural). -/
def natToStringAux : Nat → Nat → List Char
  | 0, _ => []
  | fuel + 1, n =>
    if n < 10 then [Char.ofNat (48 + n)]
    else natToStringAux fuel (n / 10) ++ [Char.ofNat (48 + n % 10)]

def natToString (n : Nat) : String := ⟨natToStringAux (n + 1) n⟩

/-- `dt.strftime("%Y-%m")`: unpadded year (as glibc renders `%Y`),
zero-padded month. -/
def monthKey (y m : Nat) : String :=
  natToString y ++ "-" ++
    (if m < 10 then "0" ++ natToString m else natToString m)

/-! ## Discovery (scraper.py lines 73-286)

The network is passed in as values: the parsed feed is an optional
list of `(title, link, pubDate)` entries (`None` = the RSS fetch
raised), and `web : String → Option String` maps a URL to the body
`_fetch_with_retry` would return (`none` = that fetch raised). -/

structure FeedEntry where
  title : Option String
  link : Option String
  pubDate : Option String
deriving DecidableEq

structure DiscoveryItem where
  pdf_url : String
  rss_item_url : String
  month_key_str : Option String
  title : String
deriving DecidableEq, Inhabited

/-- Target-PDF precedence (lines 106-114 / 206-214): first href whose
lowercase form contains `rate` and (`schedule` or `summary`),
otherwise the last href. -/
def selectTargetPdf (pdfUrls : List String) : Option String :=
  match pdfUrls.find? (fun p =>
    isSubstrL "rate".data (pyLowerL p.data) &&
      (isSubstrL "schedule".data (pyLowerL p.data) ||
        isSubstrL "summary".data (pyLowerL p.data))) with
  | some p => some p
  | none => pdfUrls.getLast?

/-- `if not pdf_url.startswith("http"): pdf_url = base + pdf_url`. -/
def absolutize (u : String) : String :=
  if startsWithL "http".data u.data then u
  else ⟨"https://company.meralco.com.ph".data ++ u.data⟩

/-- The pubDate strategy (lines 128-140): abbreviated month-year
match, `strptime("%b %Y")`; any failure (no match, or a year outside
`datetime`'s range) is swallowed by `except Exception: pass`. -/
def resolvePubDateMonth (pubDate : String) : Option String :=
  match searchAbbrevMonthYear pubDate.data with
  | some (k, y) => if 1 ≤ y then some (monthKey y k) else none
  | none => none

def goFeed (web : String → Option String) :
    List FeedEntry → Except Unit (Option DiscoveryItem)
  | [] => .ok none
  | e :: rest =>
    let title := e.title.getD ""
    if isSubstrL "SUMMARY OF SCHEDULE OF RATES".data (pyUpperL title.data) ||
        isSubstrL "SUMMARY SCHEDULE OF RATES".data (pyUpperL title.data) then
      let rss_item_url := e.link.getD ""
      let pubDate := e.pubDate.getD ""
      match web rss_item_url with
      | none => goFeed web rest
      | some html =>
        match selectTargetPdf (findPdfUrls html) with
        | none => goFeed web rest
        | some target =>
          let pdf_url := absolutize target
          match (if pubDate ≠ "" then resolvePubDateMonth pubDate else none) with
          | some mk => .ok (some ⟨pdf_url, rss_item_url, some mk, title⟩)
          | none =>
            match searchMonthNameYear title.data with
            | some (k, y) =>
              if y = 0 then .error ()
              else .ok (some ⟨pdf_url, rss_item_url, some (monthKey y k), title⟩)
            | none => .ok (some ⟨pdf_url, rss_item_url, none, title⟩)
    else goFeed web rest

/-- `fetch_latest_rss_item`.  The title-strategy `strptime` call
(lines 150-151) is not inside any handler, so an invalid year (0000)
propagates as `.error`. -/
def fetchLatestRssItem (feed : Option (List FeedEntry))
    (web : String → Option String) : Except Unit (Option DiscoveryItem) :=
  match feed with
  | none => .error ()
  | some entries => goFeed web entries

/-- Crawl state; `events` (resolved candidates reaching the range
check, in order) and `trace` (URLs fetched, in order) are ghost
instrumentation. -/
structure CrawlSt where
  items : List DiscoveryItem
  seenPdf : List String
  seenNode : List String
  events : List DiscoveryItem
  trace : List String
  stop : Bool
deriving DecidableEq

def archiveUrl (n : Nat) : String :=
  "https://company.meralco.com.ph/taxonomy/term/86?page=" ++ natToString n

/-- Detail-page title (lines 264-274): `<title>` text with
`" | Meralco"` removed and stripped, else the fixed fallback. -/
def nodeTitleOf (node_html : String) : String :=
  match searchTitle node_html.data with
  | some t => ⟨pyStripL (replaceL t " | Meralco".data [])⟩
  | none => "Historical Meralco Rates"

/-- Month-key strategies (a)-(c) of the archive crawler (lines
226-250); a `strptime` failure in (c) is caught by the surrounding
node-level handler and skips the node, like a failed match. -/
def resolveMonthArch (pdf_url node_html : String) : Option String :=
  match searchYYYYMM pdf_url.data with
  | some (y, m) => some (y ++ "-" ++ m)
  | none =>
    match searchMMYYYY pdf_url.data with
    | some (m, y) => some (y ++ "-" ++ m)
    | none =>
      let title : List Char := (searchTitle node_html.data).getD []
      match searchMonthNameYear title with
      | some (k, y) => if 1 ≤ y then some (monthKey y k) else none
      | none => none

/-- Code-point lexicographic `<` on character lists — Python string
comparison. -/
def listLtCh : List Char → List Char → Bool
  | _, [] => false
  | [], _ :: _ => true
  | a :: as2, b :: bs =>
    if a.toNat < b.toNat then true
    else if b.toNat < a.toNat then false
    else listLtCh as2 bs

def strLt (a b : String) : Bool := listLtCh a.data b.data

def strLe (a b : String) : Bool := !(strLt b a)

/-- The range decision (lines 252-275), applied to a resolved
candidate: above `end_month` → mark seen and skip; below
`start_month` → halt the crawl; otherwise append to the result. -/
def rangeStep (startM endM : String) (s : CrawlSt) (cand : DiscoveryItem)
    (mk pdf_url : String) : CrawlSt :=
  let s2 := { s with events := s.events ++ [cand] }
  if strLt endM mk then { s2 with seenPdf := s2.seenPdf ++ [pdf_url] }
  else if strLt mk startM then { s2 with stop := true }
  else { s2 with seenPdf := s2.seenPdf ++ [pdf_url],
                 items := s2.items ++ [cand] }

/-- Handling of one node link (lines 192-278). -/
def processNode (web : String → Option String) (startM endM : String)
    (s : CrawlSt) (href : String) : CrawlSt :=
  let node_url := "https://company.meralco.com.ph" ++ href
  if s.seenNode.contains node_url then s
  else
    let s1 := { s with seenNode := s.seenNode ++ [node_url],
                       trace := s.trace ++ [node_url] }
    match web node_url with
    | none => s1
    | some node_html =>
      match selectTargetPdf (findPdfUrls node_html) with
      | none => s1
      | some target =>
        let pdf_url := absolutize target
        if s1.seenPdf.contains pdf_url then s1
        else
          match resolveMonthArch pdf_url node_html with
          | none => s1
          | some mk =>
            rangeStep startM endM s1
              ⟨pdf_url, node_url, some mk, nodeTitleOf node_html⟩ mk pdf_url

/-- The `for href, link_text in node_links` loop with its
`break`-on-halt. -/
def processLinks (web : String → Option String) (startM endM : String) :
    List String → CrawlSt → CrawlSt
  | [], s => s
  | h :: t, s =>
    if s.stop then s
    else processLinks web startM endM t (processNode web startM endM s h)

/-- The `while not stop_crawling` pagination loop, fuel-bounded (the
Python loop is unbounded; every property below holds for every
fuel). -/
def crawlLoop (web : String → Option String) (startM endM : String) :
    Nat → Nat → CrawlSt → CrawlSt
  | 0, _, s => s
  | fuel + 1, page, s =>
    if s.stop then s
    else
      let s1 := { s with trace := s.trace ++ [archiveUrl page] }
      match web (archiveUrl page) with
      | none => s1
      | some html =>
        let links := (findNodeLinks html).map (fun x => x.1)
        if links = [] then s1
        else crawlLoop web startM endM fuel (page + 1)
          (processLinks web startM endM links s1)

def initCrawl : CrawlSt := ⟨[], [], [], [], [], false⟩

def crawlFull (web : String → Option String) (startM endM : String)
    (fuel : Nat) : CrawlSt :=
  crawlLoop web startM endM fuel 0 initCrawl

/-- `fetch_historical_archive_items` observable output. -/
def fetchHistoricalArchiveItems (web : String → Option String)
    (startM endM : String) (fuel : Nat) : List DiscoveryItem :=
  (crawlFull web startM endM fuel).items

def monthOf (e : DiscoveryItem) : String := e.month_key_str.getD ""

/-- The crawl invariant behind the range characterization: before the
halt every event is at least `startM` and `items` is exactly the
events that are also at most `endM`; after the halt the same holds of
all events but the last, which is below `startM`. -/
def CrawlInv (startM endM : String) (s : CrawlSt) : Prop :=
  (s.stop = false ∧
    s.items = s.events.filter (fun e => !(strLt endM (monthOf e))) ∧
    ∀ e ∈ s.events, strLt (monthOf e) startM = false) ∨
  (s.stop = true ∧
    ∃ E e0, s.events = E ++ [e0] ∧ strLt (monthOf e0) startM = true ∧
      s.items = E.filter (fun e => !(strLt endM (monthOf e))) ∧
      ∀ x ∈ E, strLt (monthOf x) startM = false)

/-- Concrete discovery web for the range-halting example: one archive
page with three nodes resolving to 2024-03, 2024-02, 2024-01. -/
def webC3 : String → Option String := fun u =>
  if u = archiveUrl 0 then
    some "<a href=\"/node/1\">A</a><a href=\"/node/2\">B</a><a href=\"/node/3\">C</a>"
  else if u = "https://company.meralco.com.ph/node/1" then
    some "<title>March 2024 Rates | Meralco</title><a href=\"/f/2024-03/a.pdf\">"
  else if u = "https://company.meralco.com.ph/node/2" then
    some "<title>February 2024 Rates | Meralco</title><a href=\"/f/2024-02/a.pdf\">"
  else if u = "https://company.meralco.com.ph/node/3" then
    some "<title>January 2024 Rates | Meralco</title><a href=\"/f/2024-01/a.pdf\">"
  else none

/-- Concrete feed whose only qualifying entry has no month-year
phrase in either `pubDate` or title. -/
def feedC2 : List FeedEntry :=
  [⟨some "Summary of Schedule of Rates", some "http://x/page", some "posted recently"⟩]

def webC2 : String → Option String := fun u =>
  if u = "http://x/page" then some "<a href=\"http://x/a.pdf\">" else none

/-! ## Fetch client with retry (scraper.py lines 45-71)

The network is abstracted as one `AttemptOutcome` per attempt index.
`fetchGo`'s fuel counts the remaining iterations of
`for attempt in range(self.retries)`; the trace records the
`time.sleep(2**attempt)` calls in order. -/

inductive AttemptOutcome where
  | success (body : String)
  | httpError (code : Nat)
  | urlError
deriving DecidableEq

inductive FetchErr where
  | httpRaise (code : Nat)
  | exhausted (url : String) (attempts : Nat)
deriving DecidableEq

structure FetchTrace where
  result : Except FetchErr String
  attempts : Nat
  sleeps : List Nat
deriving DecidableEq

/-- Whether an attempt outcome is retried: any `URLError`, and
`HTTPError` with `e.code == 429 or 500 <= e.code < 600`. -/
def retryable : AttemptOutcome → Bool
  | .success _ => false
  | .httpError c => decide (c = 429) || (decide (500 ≤ c) && decide (c < 600))
  | .urlError => true

def fetchGo (url : String) (retries : Nat) (outcomes : Nat → AttemptOutcome) :
    Nat → Nat → List Nat → FetchTrace
  | 0, attempt, sleeps => ⟨.error (.exhausted url retries), attempt, sleeps⟩
  | fuel + 1, attempt, sleeps =>
    match outcomes attempt with
    | .success body => ⟨.ok body, attempt + 1, sleeps⟩
    | .httpError c =>
      if c = 429 ∨ (500 ≤ c ∧ c < 600) then
        fetchGo url retries outcomes fuel (attempt + 1) (sleeps ++ [2 ^ attempt])
      else ⟨.error (.httpRaise c), attempt + 1, sleeps⟩
    | .urlError => fetchGo url retries outcomes fuel (attempt + 1) (sleeps ++ [2 ^ attempt])

/-- `_fetch_with_retry`. -/
def fetchWithRetry (url : String) (retries : Nat)
    (outcomes : Nat → AttemptOutcome) : FetchTrace :=
  fetchGo url retries outcomes retries 0 []

/-- Invariant of every emitted rate row: non-zero core charges and
bracket bounds computed from its own bracket label. -/
def GoodRate (r : Rate) : Prop :=
  r.generation_charge ≠ 0 ∧ r.distribution_charge ≠ 0 ∧
    r.system_loss_charge ≠ 0 ∧
    (r.min_kwh, r.max_kwh) = parseBracket r.consumption_bracket

/-- A concrete residential table whose header block maps all 8 core
keys and whose single data row passes every gate. -/
def tableGood : Table :=
  [[some "bracket", some "generation", some "transmission", some "system loss",
    some "distribution", some "supply", some "metering", some "lifeline subsidy",
    some "lifeline discount"],
   [some "100 TO 200 KWH", some "1.5", some "2", some "3", some "4", some "5",
    some "6", some "7", some "8"]]

def pdfGood : List Page := [[tableGood]]

end Meralco

namespace Meralco

section RatEval

attribute [local semireducible] Rat.mul Rat.inv Rat.add Rat.sub

/-- Claim C1 counterexample: `parse_negative` is not total.  On the
input `"(x)"` the parenthesized branch reaches `-float("x")`, which
raises `ValueError` outside any handler. -/
theorem parse_negative_not_total_cex :
    parse_negative "(x)" = .error () := by decide

/-- Claim C1 (amended): `parse_negative` returns a numeric value for
every string except those whose normalized form is parenthesized with
non-empty unparseable inner text (where the `float` call raises); in
particular empty and plain unparseable text parse to `0.0`, and the
documented sign/separator examples hold. -/
theorem parse_negative_total_off_paren :
    (∀ s : String, exOk (parse_negative s) = true ↔ parenBad s = false) ∧
      parse_negative "" = .ok 0 ∧
      parse_negative "not a number" = .ok 0 ∧
      parse_negative "0.123" = .ok (123 / 1000) ∧
      parse_negative "(0.123)" = .ok (-(123 / 1000)) ∧
      parse_negative "P(1,234.56)" = .ok (-(123456 / 100)) := by
  refine ⟨?_, by decide, by decide, by decide, by decide, by decide⟩
  intro s
  unfold parse_negative parenBad
  by_cases hs : s = ""
  · simp [hs, exOk]
  · simp only [if_neg hs]
    by_cases hp : (startsWithL ['('] (normNeg s) && endsWithL [')'] (normNeg s)) = true
    · simp only [hp, if_true]
      by_cases hn : parenStripL (normNeg s) = []
      · simp [hs, hp, hn, exOk]
      · cases hq : parseFloatL (parenStripL (normNeg s)) with
        | none => simp [hs, hp, hn, hq, exOk]
        | some q => simp [hs, hp, hn, hq, exOk]
    · simp only [Bool.not_eq_true] at hp
      simp only [hp, if_false]
      cases hq : parseFloatL (normNeg s) with
      | none => simp [hs, hp, hq, exOk]
      | some q => simp [hs, hp, hq, exOk]

/-- Claim C10 counterexample: `_val` is not safe for every column
mapping.  A mapped index of `-2` passes both guards (`!= -1`,
`< len`), reaches `clean_row[-2]`, and on a 1-cell row that raises
`IndexError`. -/
theorem pyVal_negative_index_cex :
    pyVal [("generation_charge", .one (-2))] [""] "generation_charge" false =
      .error () := by decide

/-- Claim C10 (amended): `_val` yields `0.0` without any out-of-range
access whenever the key is absent, a scalar index is the `-1` sentinel
or at least the row length, or every index of a list-valued mapping is
`-1` or at least the row length.  (Indices below `-1` instead trigger
Python end-relative indexing and can raise `IndexError`.) -/
theorem pyVal_row_width :
    (∀ entries row key pct, dictGet entries key = none →
      pyVal entries row key pct = .ok 0) ∧
    (∀ entries row key pct i, dictGet entries key = some (.one i) →
      (i = -1 ∨ (row.length : Int) ≤ i) → pyVal entries row key pct = .ok 0) ∧
    (∀ entries row key pct l, dictGet entries key = some (.many l) →
      (∀ ix ∈ l, ix = -1 ∨ (row.length : Int) ≤ ix) →
      pyVal entries row key pct = .ok 0) := by
  have hmany : ∀ (row : List String) (pct : Bool) (l : List Int) (acc : ℚ),
      (∀ ix ∈ l, ix = -1 ∨ (row.length : Int) ≤ ix) →
      pyValManyGo row pct acc l = .ok acc := by
    intro row pct l
    induction l with
    | nil => intro acc _; rfl
    | cons ix rest ih =>
      intro acc h
      have hx := h ix (List.mem_cons_self ix rest)
      have hcond : (ix ≠ -1 && ix < (row.length : Int)) = false := by
        rcases hx with h1 | h1
        · simp [h1]
        · simp [not_lt.mpr h1]
      simp only [pyValManyGo, hcond, Bool.false_eq_true, if_false]
      exact ih acc (fun y hy => h y (List.mem_cons_of_mem ix hy))
  refine ⟨?_, ?_, ?_⟩
  · intro entries row key pct h
    simp [pyVal, h, Option.getD]
  · intro entries row key pct i h hi
    have : (i = -1 || (row.length : Int) ≤ i) = true := by
      rcases hi with h1 | h1 <;> simp [h1]
    simp [pyVal, h, Option.getD, this]
  · intro entries row key pct l h hl
    simp only [pyVal, h, Option.getD]
    exact hmany row pct l 0 hl

/-- Witness for the amended C10 theorem: absent key, one-past-the-end
scalar index, and a list of out-of-range indices all yield `0.0`. -/
theorem pyVal_row_width_witness :
    pyVal [] ["1"] "generation_charge" false = .ok 0 ∧
    pyVal [("supply_charge", .one 5)] ["1"] "supply_charge" false = .ok 0 ∧
    pyVal [("supply_charge", .many [-1, 7])] ["1"] "supply_charge" false =
      .ok 0 :=
  ⟨pyVal_row_width.1 [] ["1"] "generation_charge" false (by decide),
   pyVal_row_width.2.1 [("supply_charge", .one 5)] ["1"] "supply_charge" false 5
     (by decide) (by decide),
   pyVal_row_width.2.2 [("supply_charge", .many [-1, 7])] ["1"] "supply_charge"
     false [-1, 7] (by decide) (by decide)⟩

/-- Claim C8 counterexample: the header text `"reset"` is non-empty,
is classified into no canonical key (the `elif "reset"` arm assigns
nothing when neither `onetime` nor `regulatory` appears), is not in
the noise list, and yet is NOT accumulated into `unmapped_headers`. -/
theorem buildColMap_reset_dropped_cex :
    normalizedHeaders [[some "reset"]] = ["reset".data] ∧
    (buildColMap [[some "reset"]]).entries = [] ∧
    isNoise "reset".data = false ∧
    (buildColMap [[some "reset"]]).unmapped = [] := by decide

/-- Claim C8 (amended): every non-empty normalized header that matches
no arm of the classification chain at all (`classifyHeader` is
`unmatched` — in particular it does not contain `"reset"`) and is not
noise is appended to `unmapped_headers`; headers falling into the
`reset` arm with no sub-type are silently dropped. -/
theorem buildColMap_unmapped_complete (table : List (List (Option String)))
    (t : List Char) (hmem : t ∈ normalizedHeaders table) (hne : t ≠ [])
    (hcl : classifyHeader t = .unmatched) (hns : isNoise t = false) :
    (⟨t⟩ : String) ∈ (buildColMap table).unmapped := by
  have hstepMono : ∀ (m : ColMap) (i : Nat) (u : List Char) (x : String),
      x ∈ m.unmapped → x ∈ (classifyStep m i u).unmapped := by
    intro m i u x hx
    unfold classifyStep
    split
    · exact hx
    · split
      · exact hx
      · exact hx
      · split
        · exact hx
        · exact List.mem_append_left _ hx
  have hfoldMono : ∀ (ts : List (List Char)) (m : ColMap) (i : Nat) (x : String),
      x ∈ m.unmapped → x ∈ (classifyFold m i ts).unmapped := by
    intro ts
    induction ts with
    | nil => intro m i x hx; exact hx
    | cons u us ih => intro m i x hx; exact ih _ _ x (hstepMono m i u x hx)
  have hadds : ∀ (ts : List (List Char)) (m : ColMap) (i : Nat),
      t ∈ ts → (⟨t⟩ : String) ∈ (classifyFold m i ts).unmapped := by
    intro ts
    induction ts with
    | nil => intro m i h; exact absurd h (List.not_mem_nil t)
    | cons u us ih =>
      intro m i h
      rcases List.mem_cons.mp h with h1 | h1
      · subst h1
        refine hfoldMono us _ _ _ ?_
        unfold classifyStep
        simp only [hne, hcl, hns]
        simp
      · exact ih _ _ h1
  exact hadds _ _ _ hmem

/-- Witness for the amended C8 theorem at a concrete table: the
unclassified header `"mystery"` lands in `unmapped_headers`. -/
theorem buildColMap_unmapped_complete_witness :
    ("mystery" : String) ∈ (buildColMap [[some "mystery"]]).unmapped :=
  buildColMap_unmapped_complete [[some "mystery"]] "mystery".data (by decide)
    (by decide) (by decide) (by decide)

theorem processRows_stop (cm : ColMap) (s : ExtState) (rows : List Row)
    (h : s.stop = true) : processRows cm s rows = s := by
  cases rows with
  | nil => rfl
  | cons r rs => simp [processRows, h]

theorem processTable_stop (s : ExtState) (t : Table) (h : s.stop = true) :
    processTable s t = s := by
  simp [processTable, h]

theorem foldTables_stop (s : ExtState) (ts : List Table) (h : s.stop = true) :
    ts.foldl processTable s = s := by
  induction ts with
  | nil => rfl
  | cons t ts ih => rw [List.foldl_cons, processTable_stop s t h, ih]

theorem processPage_stop (s : ExtState) (p : Page) (h : s.stop = true) :
    processPage s p = s := by
  simp [processPage, h]

theorem foldPages_stop (s : ExtState) (ps : List Page) (h : s.stop = true) :
    ps.foldl processPage s = s := by
  induction ps with
  | nil => rfl
  | cons p ps ih => rw [List.foldl_cons, processPage_stop s p h, ih]

theorem cleanHead (row : Row) : (row.map cleanCell).headI = cleanCell row.headI := by
  cases row <;> rfl

theorem processRows_cons (cm : ColMap) (s : ExtState) (r : Row) (rs : List Row)
    (h : s.stop = false) :
    processRows cm s (r :: rs) = processRows cm (processRow cm s r) rs := by
  show (if s.stop = true then s else processRows cm (processRow cm s r) rs) = _
  rw [if_neg (by simp [h])]

theorem processTable_go (s : ExtState) (t : Table) (h : s.stop = false) :
    processTable s t = processRows (buildColMap t) s t := by
  unfold processTable
  rw [if_neg (by simp [h])]

theorem processPage_go (s : ExtState) (p : Page) (h : s.stop = false) :
    processPage s p = p.foldl processTable s := by
  unfold processPage
  rw [if_neg (by simp [h])]

theorem marker_processRow (cm : ColMap) (s : ExtState) (m : Row)
    (hm : isMarkerRow m = true) :
    processRow cm s m = { s with stop := true } := by
  unfold isMarkerRow at hm
  rw [Bool.and_eq_true] at hm
  obtain ⟨h1, h2⟩ := hm
  rw [Bool.not_eq_true'] at h1
  unfold processRow
  rw [h1, if_neg (by simp), h2, if_pos rfl]

theorem processRows_marker_stop (cm : ColMap) (m : Row) (hm : isMarkerRow m = true) :
    ∀ (rowsPre rowsPost : List Row) (s : ExtState),
      (processRows cm s (rowsPre ++ m :: rowsPost)).stop = true := by
  intro rowsPre
  induction rowsPre with
  | nil =>
    intro rowsPost s
    rw [List.nil_append]
    by_cases h : s.stop = true
    · rw [processRows_stop cm s _ h]; exact h
    · rw [Bool.not_eq_true] at h
      rw [processRows_cons cm s m rowsPost h, marker_processRow cm s m hm,
        processRows_stop _ _ _ rfl]
  | cons r rs ih =>
    intro rowsPost s
    rw [List.cons_append]
    by_cases h : s.stop = true
    · rw [processRows_stop cm s _ h]; exact h
    · rw [Bool.not_eq_true] at h
      rw [processRows_cons cm s r _ h]
      exact ih rowsPost (processRow cm s r)

theorem processRows_cut (cm : ColMap) (m : Row) (hm : isMarkerRow m = true) :
    ∀ (rowsPre rowsPost : List Row) (s : ExtState),
      processRows cm s (rowsPre ++ m :: rowsPost) = processRows cm s (rowsPre ++ [m]) := by
  intro rowsPre
  induction rowsPre with
  | nil =>
    intro rowsPost s
    by_cases h : s.stop = true
    · rw [processRows_stop cm s _ h, processRows_stop cm s _ h]
    · rw [Bool.not_eq_true] at h
      rw [List.nil_append, List.nil_append, processRows_cons cm s m rowsPost h,
        processRows_cons cm s m [] h, marker_processRow cm s m hm,
        processRows_stop _ _ _ rfl, processRows_stop _ _ _ rfl]
  | cons r rs ih =>
    intro rowsPost s
    by_cases h : s.stop = true
    · rw [List.cons_append, List.cons_append, processRows_stop cm s _ h,
        processRows_stop cm s _ h]
    · rw [Bool.not_eq_true] at h
      rw [List.cons_append, List.cons_append, processRows_cons cm s r _ h,
        processRows_cons cm s r _ h, ih rowsPost]

/-- Claim C5: a first cell beginning with `GENERAL SERVICE` is a
terminal signal.  Dropping everything after the marker's table — later
tables on the page and later pages — does not change the extracted
rates, and within the marker's own table the row loop never looks past
the marker row. -/
theorem general_service_terminal (m : Row) (hm : isMarkerRow m = true) :
    (∀ (pagesPre : List Page) (tablesPre : List Table) (rowsPre rowsPost : List Row)
        (tablesPost : List Table) (pagesPost : List Page),
      extractRates
          (pagesPre ++ (tablesPre ++ (rowsPre ++ m :: rowsPost) :: tablesPost) :: pagesPost) =
        extractRates (pagesPre ++ [tablesPre ++ [rowsPre ++ m :: rowsPost]])) ∧
    (∀ (cm : ColMap) (s : ExtState) (rowsPre rowsPost : List Row),
      processRows cm s (rowsPre ++ m :: rowsPost) =
        processRows cm s (rowsPre ++ [m])) := by
  constructor
  · intro pagesPre tablesPre rowsPre rowsPost tablesPost pagesPost
    unfold extractRates extractSt
    rw [List.foldl_append, List.foldl_append]
    set s0 := List.foldl processPage extractInit pagesPre with hs0
    rw [List.foldl_cons, List.foldl_cons, List.foldl_nil]
    by_cases h0 : s0.stop = true
    · rw [processPage_stop _ _ h0, processPage_stop _ _ h0, foldPages_stop _ _ h0]
    · rw [Bool.not_eq_true] at h0
      rw [processPage_go _ _ h0, processPage_go _ _ h0,
        List.foldl_append, List.foldl_append]
      set s1 := List.foldl processTable s0 tablesPre with hs1
      rw [List.foldl_cons, List.foldl_cons, List.foldl_nil]
      have hT : (processTable s1 (rowsPre ++ m :: rowsPost)).stop = true := by
        by_cases h1 : s1.stop = true
        · rw [processTable_stop _ _ h1]; exact h1
        · rw [Bool.not_eq_true] at h1
          rw [processTable_go _ _ h1]
          exact processRows_marker_stop _ m hm rowsPre rowsPost s1
      rw [foldTables_stop _ _ hT, foldPages_stop _ _ hT]
  · intro cm s rowsPre rowsPost
    exact processRows_cut cm m hm rowsPre rowsPost s

/-- Witness for C5 at a concrete marker row: the rows after the
marker never change the row-loop result. -/
theorem general_service_terminal_witness :
    processRows ⟨[], []⟩ extractInit
        ([] ++ [some "GENERAL SERVICE X"] :: [[some "OVER 5 KWH"]]) =
      processRows ⟨[], []⟩ extractInit ([] ++ [[some "GENERAL SERVICE X"]]) :=
  (general_service_terminal [some "GENERAL SERVICE X"] (by decide)).2
    ⟨[], []⟩ extractInit [] [[some "OVER 5 KWH"]]

theorem rows_missing (cm : ColMap)
    (hmiss : requiredCore.filter (fun k => (dictGet cm.entries k).isNone) ≠ []) :
    ∀ (rows : List Row) (s : ExtState), s.stop = false →
      (processRows cm s rows).rates = s.rates ∧
      (processRows cm s rows).diags = s.diags ++
        List.replicate
          (((rows.takeWhile (fun r => !(isMarkerRow r))).filter isBracketRowB).length)
          (.missingMapping (requiredCore.filter (fun k => (dictGet cm.entries k).isNone))) := by
  intro rows
  induction rows with
  | nil => intro s _; exact ⟨rfl, by simp [processRows]⟩
  | cons r rs ih =>
    intro s hstop
    rw [processRows_cons cm s r rs hstop]
    by_cases hm : isMarkerRow r = true
    · rw [marker_processRow cm s r hm, processRows_stop _ _ _ rfl]
      constructor
      · rfl
      · simp [List.takeWhile_cons, hm]
    · rw [Bool.not_eq_true] at hm
      have htw : (r :: rs).takeWhile (fun r => !(isMarkerRow r)) =
          r :: rs.takeWhile (fun r => !(isMarkerRow r)) := by
        simp [List.takeWhile_cons, hm]
      by_cases hg : (r = [] || !(r.any cellTruthy)) = true
      · have hpr : processRow cm s r = s := by
          unfold processRow; rw [if_pos hg]
        have hbr : isBracketRowB r = false := by
          unfold isBracketRowB
          rw [hg]
          rfl
        rw [hpr]
        refine ((ih s hstop).imp id ?_)
        intro hd
        rw [htw]
        simp only [List.filter_cons, hbr]
        exact hd
      · rw [Bool.not_eq_true] at hg
        have hmk : startsWithL "GENERAL SERVICE".data
            (pyUpperL (cleanCell r.headI).data) = false := by
          unfold isMarkerRow at hm
          rw [hg] at hm
          simpa using hm
        by_cases hb : isBracketCell (cleanCell r.headI) = true
        · have hpr : processRow cm s r =
              { s with diags := s.diags ++
                [.missingMapping (requiredCore.filter
                  (fun k => (dictGet cm.entries k).isNone))] } := by
            unfold processRow
            rw [if_neg (by simp [hg]), hmk, if_neg (by simp), hb,
              if_pos rfl, if_pos hmiss]
          have hbr : isBracketRowB r = true := by
            unfold isBracketRowB
            rw [hg, hm, hb]
            rfl
          rw [hpr]
          obtain ⟨ha, hd⟩ :=
            ih { s with diags := s.diags ++
              [Diag.missingMapping (requiredCore.filter
                (fun k => (dictGet cm.entries k).isNone))] } hstop
          refine ⟨ha, ?_⟩
          rw [hd, htw]
          simp only [List.filter_cons, hbr, if_pos, List.length_cons]
          rw [List.replicate_succ]
          simp
        · rw [Bool.not_eq_true] at hb
          have hpr : processRow cm s r = s := by
            unfold processRow
            rw [if_neg (by simp [hg]), hmk, if_neg (by simp), hb,
              if_neg (by simp)]
          have hbr : isBracketRowB r = false := by
            unfold isBracketRowB
            rw [hb]
            simp
          rw [hpr]
          refine ((ih s hstop).imp id ?_)
          intro hd
          rw [htw]
          simp only [List.filter_cons, hbr]
          exact hd

/-- Claim C6: when the table's column mapping misses any of the 8
required core keys, the table contributes zero rate rows, and each
reached bracket row produces exactly one diagnostic naming the missing
keys. -/
theorem missing_mapping_rejects (s : ExtState) (t : Table)
    (hstop : s.stop = false)
    (hmiss : requiredCore.filter (fun k => (dictGet (buildColMap t).entries k).isNone) ≠ []) :
    (processTable s t).rates = s.rates ∧
    (processTable s t).diags = s.diags ++
      List.replicate (reachedBracketCount t)
        (.missingMapping (requiredCore.filter
          (fun k => (dictGet (buildColMap t).entries k).isNone))) := by
  unfold processTable
  rw [if_neg (by simp [hstop])]
  exact rows_missing (buildColMap t) hmiss t s hstop

/-- Witness for C6 at a concrete one-row table whose mapping is
entirely missing: the bracket row is rejected with a diagnostic and no
rate is produced. -/
theorem missing_mapping_rejects_witness :
    (processTable extractInit [[some "100 TO 200 KWH"]]).rates = extractInit.rates ∧
    (processTable extractInit [[some "100 TO 200 KWH"]]).diags = extractInit.diags ++
      List.replicate (reachedBracketCount [[some "100 TO 200 KWH"]])
        (.missingMapping (requiredCore.filter
          (fun k => (dictGet (buildColMap [[some "100 TO 200 KWH"]]).entries k).isNone))) :=
  missing_mapping_rejects extractInit [[some "100 TO 200 KWH"]] (by decide) (by decide)

theorem except_bind_ok {α β : Type} {e : Except Unit α} {f : α → Except Unit β}
    {b : β} (h : (e >>= f) = .ok b) : ∃ a, e = .ok a ∧ f a = .ok b := by
  cases e with
  | error u => exact Except.noConfusion h
  | ok a => exact ⟨a, rfl, h⟩

theorem except_ok_bind {α β : Type} (a : α) (f : α → Except Unit β) :
    (Except.ok a >>= f) = f a := rfl

theorem parseRowRate_ok_some {entries : List (String × IdxVal)}
    {cleanRow : List String} {r : Rate}
    (h : parseRowRate entries cleanRow = .ok (some r)) :
    r.generation_charge ≠ 0 ∧ r.distribution_charge ≠ 0 ∧
      r.system_loss_charge ≠ 0 ∧ r.consumption_bracket = cleanRow.headI ∧
      (r.min_kwh, r.max_kwh) = parseBracket cleanRow.headI := by
  unfold parseRowRate at h
  obtain ⟨gen, hgen, h⟩ := except_bind_ok h
  obtain ⟨dist, hdist, h⟩ := except_bind_ok h
  obtain ⟨sys, hsys, h⟩ := except_bind_ok h
  by_cases hz : gen = 0 ∨ dist = 0 ∨ sys = 0
  · rw [if_pos hz] at h
    exact absurd (Except.ok.inj h) (by simp)
  · rw [if_neg hz] at h
    obtain ⟨trans, htr, h⟩ := except_bind_ok h
    obtain ⟨supply, hsu, h⟩ := except_bind_ok h
    obtain ⟨metering, hme, h⟩ := except_bind_ok h
    obtain ⟨awat, haw, h⟩ := except_bind_ok h
    obtain ⟨reg, hre, h⟩ := except_bind_ok h
    obtain ⟨ot, hot, h⟩ := except_bind_ok h
    obtain ⟨ls, hls, h⟩ := except_bind_ok h
    obtain ⟨ld, hld, h⟩ := except_bind_ok h
    obtain ⟨sen, hse, h⟩ := except_bind_ok h
    obtain ⟨rpt, hrp, h⟩ := except_bind_ok h
    obtain ⟨npc, hnp, h⟩ := except_bind_ok h
    obtain ⟨red, hrd, h⟩ := except_bind_ok h
    obtain ⟨ue, hue, h⟩ := except_bind_ok h
    obtain ⟨us, hus, h⟩ := except_bind_ok h
    obtain ⟨fa, hfa, h⟩ := except_bind_ok h
    obtain ⟨ga, hga, h⟩ := except_bind_ok h
    have h2 := Option.some.inj (Except.ok.inj h)
    push_neg at hz
    subst h2
    exact ⟨hz.1, hz.2.1, hz.2.2, rfl, rfl⟩

theorem processRow_rates (cm : ColMap) (s : ExtState) (row : Row) :
    (processRow cm s row).rates = s.rates ∨
      ∃ r, GoodRate r ∧ (processRow cm s row).rates = s.rates ++ [r] := by
  unfold processRow
  by_cases hg : (row = [] || !(row.any cellTruthy)) = true
  · rw [if_pos hg]; exact Or.inl rfl
  · rw [if_neg hg]
    by_cases hmk : startsWithL "GENERAL SERVICE".data
        (pyUpperL (cleanCell row.headI).data) = true
    · rw [if_pos hmk]; exact Or.inl rfl
    · rw [if_neg hmk]
      by_cases hb : isBracketCell (cleanCell row.headI) = true
      · rw [if_pos hb]
        by_cases hmiss :
            requiredCore.filter (fun k => (dictGet cm.entries k).isNone) ≠ []
        · rw [if_pos hmiss]; exact Or.inl rfl
        · rw [if_neg hmiss]
          cases hp : parseRowRate cm.entries (row.map cleanCell) with
          | error e => exact Or.inl rfl
          | ok o =>
            cases o with
            | none => exact Or.inl rfl
            | some r =>
              refine Or.inr ⟨r, ?_, rfl⟩
              obtain ⟨h1, h2, h3, h4, h5⟩ := parseRowRate_ok_some hp
              exact ⟨h1, h2, h3, by rw [h5, h4]⟩
      · rw [if_neg hb]; exact Or.inl rfl

theorem rows_good (cm : ColMap) :
    ∀ (rows : List Row) (s : ExtState), (∀ r ∈ s.rates, GoodRate r) →
      ∀ r ∈ (processRows cm s rows).rates, GoodRate r := by
  intro rows
  induction rows with
  | nil => intro s hs; exact hs
  | cons r0 rs ih =>
    intro s hs
    by_cases h : s.stop = true
    · rw [processRows_stop cm s _ h]; exact hs
    · rw [Bool.not_eq_true] at h
      rw [processRows_cons cm s r0 rs h]
      refine ih _ ?_
      rcases processRow_rates cm s r0 with hsame | ⟨r1, hgood, happ⟩
      · intro r hr; rw [hsame] at hr; exact hs r hr
      · intro r hr
        rw [happ] at hr
        rcases List.mem_append.mp hr with h1 | h2
        · exact hs r h1
        · rw [List.mem_singleton.mp h2]; exact hgood

theorem tables_good :
    ∀ (ts : List Table) (s : ExtState), (∀ r ∈ s.rates, GoodRate r) →
      ∀ r ∈ (ts.foldl processTable s).rates, GoodRate r := by
  intro ts
  induction ts with
  | nil => intro s hs; exact hs
  | cons t ts ih =>
    intro s hs
    rw [List.foldl_cons]
    refine ih _ ?_
    by_cases h : s.stop = true
    · rw [processTable_stop _ _ h]; exact hs
    · rw [Bool.not_eq_true] at h
      rw [processTable_go _ _ h]
      exact rows_good _ t s hs

theorem pages_good :
    ∀ (ps : List Page) (s : ExtState), (∀ r ∈ s.rates, GoodRate r) →
      ∀ r ∈ (ps.foldl processPage s).rates, GoodRate r := by
  intro ps
  induction ps with
  | nil => intro s hs; exact hs
  | cons p ps ih =>
    intro s hs
    rw [List.foldl_cons]
    refine ih _ ?_
    by_cases h : s.stop = true
    · rw [processPage_stop _ _ h]; exact hs
    · rw [Bool.not_eq_true] at h
      rw [processPage_go _ _ h]
      exact tables_good p s hs

theorem extract_good (pdf : List Page) : ∀ r ∈ extractRates pdf, GoodRate r := by
  unfold extractRates extractSt
  exact pages_good pdf extractInit (by intro r hr; exact absurd hr (List.not_mem_nil r))

/-- Claim C7: every rate row emitted by `extract_residential_rates`
has non-zero generation, distribution and system-loss charges; and a
bracket row whose parsed generation, distribution or system-loss
charge is exactly `0.0` is rejected with a diagnostic, contributing no
rate row. -/
theorem zero_core_rejected :
    (∀ (pdf : List Page) (r : Rate), r ∈ extractRates pdf →
      r.generation_charge ≠ 0 ∧ r.distribution_charge ≠ 0 ∧
        r.system_loss_charge ≠ 0) ∧
    (∀ (cm : ColMap) (s : ExtState) (row : Row) (gen dist sys : ℚ),
      (row = [] || !(row.any cellTruthy)) = false →
      startsWithL "GENERAL SERVICE".data (pyUpperL (cleanCell row.headI).data) = false →
      isBracketCell (cleanCell row.headI) = true →
      requiredCore.filter (fun k => (dictGet cm.entries k).isNone) = [] →
      pyVal cm.entries (row.map cleanCell) "generation_charge" false = .ok gen →
      pyVal cm.entries (row.map cleanCell) "distribution_charge" false = .ok dist →
      pyVal cm.entries (row.map cleanCell) "system_loss_charge" false = .ok sys →
      (gen = 0 ∨ dist = 0 ∨ sys = 0) →
      processRow cm s row = { s with diags := s.diags ++ [.zeroCore] }) := by
  constructor
  · intro pdf r hr
    obtain ⟨h1, h2, h3, _⟩ := extract_good pdf r hr
    exact ⟨h1, h2, h3⟩
  · intro cm s row gen dist sys hg hmk hb hmiss hgen hdist hsys hz
    have hp : parseRowRate cm.entries (row.map cleanCell) = .ok none := by
      unfold parseRowRate
      simp only [hgen, hdist, hsys, except_ok_bind]
      rw [if_pos hz]
      rfl
    unfold processRow
    rw [if_neg (by simp [hg]), hmk, if_neg (by simp), hb, if_pos rfl,
      if_neg (by simp [hmiss]), hp]

/-- Witness for C7: the single rate extracted from a concrete good
table indeed has non-zero core charges. -/
theorem zero_core_rejected_witness :
    (extractRates pdfGood).headI.generation_charge ≠ 0 ∧
    (extractRates pdfGood).headI.distribution_charge ≠ 0 ∧
    (extractRates pdfGood).headI.system_loss_charge ≠ 0 :=
  zero_core_rejected.1 pdfGood (extractRates pdfGood).headI (by decide)

theorem pyUpperC_digit (c : Char) (h : isDigitC c = true) : pyUpperC c = c := by
  unfold isDigitC at h
  rw [Bool.and_eq_true] at h
  have h9 : c ≤ '9' := of_decide_eq_true h.2
  have hna : ¬('a' ≤ c) := fun hle => absurd (le_trans hle h9) (by decide)
  unfold pyUpperC
  rw [if_neg (by simp [hna])]

theorem upper_digits (l : List Char) (h : l.all isDigitC = true) :
    List.map pyUpperC l = l := by
  induction l with
  | nil => rfl
  | cons c cs ih =>
    rw [List.all_cons, Bool.and_eq_true] at h
    rw [List.map_cons, pyUpperC_digit c h.1, ih h.2]

theorem findNumsAcc_d_cons (c : Char) (hc : isDigitC c = true)
    (cur : List Char) (acc : List Nat) (rest : List Char) :
    findNumsAcc cur acc (c :: rest) = findNumsAcc (cur ++ [c]) acc rest := by
  show (if isDigitC c = true then findNumsAcc (cur ++ [c]) acc rest
    else if cur = [] then findNumsAcc [] acc rest
    else findNumsAcc [] (acc ++ [digitsVal cur]) rest) = _
  rw [if_pos hc]

theorem findNumsAcc_nd_cons (c : Char) (hc : isDigitC c = false)
    (cur : List Char) (hcur : cur ≠ []) (acc : List Nat) (rest : List Char) :
    findNumsAcc cur acc (c :: rest) = findNumsAcc [] (acc ++ [digitsVal cur]) rest := by
  show (if isDigitC c = true then findNumsAcc (cur ++ [c]) acc rest
    else if cur = [] then findNumsAcc [] acc rest
    else findNumsAcc [] (acc ++ [digitsVal cur]) rest) = _
  rw [if_neg (by simp [hc]), if_neg hcur]

theorem findNumsAcc_nd_nil (c : Char) (hc : isDigitC c = false)
    (acc : List Nat) (rest : List Char) :
    findNumsAcc [] acc (c :: rest) = findNumsAcc [] acc rest := by
  show (if isDigitC c = true then findNumsAcc ([] ++ [c]) acc rest
    else if ([] : List Char) = [] then findNumsAcc [] acc rest
    else findNumsAcc [] (acc ++ [digitsVal []]) rest) = _
  rw [if_neg (by simp [hc]), if_pos rfl]

theorem findNumsAcc_runs (ds : List Char) (hd : ds.all isDigitC = true) :
    ∀ (cur : List Char) (acc : List Nat) (rest : List Char),
      findNumsAcc cur acc (ds ++ rest) = findNumsAcc (cur ++ ds) acc rest := by
  induction ds with
  | nil => intro cur acc rest; simp
  | cons d ds ih =>
    intro cur acc rest
    rw [List.all_cons, Bool.and_eq_true] at hd
    rw [List.cons_append, findNumsAcc_d_cons d hd.1, ih hd.2 (cur ++ [d]) acc rest]
    simp

theorem findNums_two (a b : List Char) (ha : a ≠ []) (hb : b ≠ [])
    (hda : a.all isDigitC = true) (hdb : b.all isDigitC = true) :
    findNums (a ++ " TO ".data ++ b ++ " KWH".data) = [digitsVal a, digitsVal b] := by
  unfold findNums
  rw [List.append_assoc, List.append_assoc]
  rw [findNumsAcc_runs a hda [] [] _]
  rw [List.nil_append]
  have hsep1 : " TO ".data ++ (b ++ " KWH".data) =
      ' ' :: 'T' :: 'O' :: ' ' :: (b ++ " KWH".data) := rfl
  rw [hsep1]
  rw [findNumsAcc_nd_cons ' ' (by decide) a ha]
  rw [findNumsAcc_nd_nil 'T' (by decide), findNumsAcc_nd_nil 'O' (by decide),
    findNumsAcc_nd_nil ' ' (by decide)]
  rw [findNumsAcc_runs b hdb _ _ _]
  rw [List.nil_append]
  have hsep2 : (" KWH" : String).data = ' ' :: 'K' :: 'W' :: 'H' :: [] := rfl
  rw [hsep2]
  rw [findNumsAcc_nd_cons ' ' (by decide) b hb]
  rw [findNumsAcc_nd_nil 'K' (by decide), findNumsAcc_nd_nil 'W' (by decide),
    findNumsAcc_nd_nil 'H' (by decide)]
  unfold findNumsAcc
  simp

theorem findNums_over (n : List Char) (hn : n ≠ []) (hdn : n.all isDigitC = true) :
    findNums ("OVER ".data ++ n ++ " KWH".data) = [digitsVal n] := by
  unfold findNums
  rw [List.append_assoc]
  have hsep0 : "OVER ".data ++ (n ++ " KWH".data) =
      'O' :: 'V' :: 'E' :: 'R' :: ' ' :: (n ++ " KWH".data) := rfl
  rw [hsep0]
  rw [findNumsAcc_nd_nil 'O' (by decide), findNumsAcc_nd_nil 'V' (by decide),
    findNumsAcc_nd_nil 'E' (by decide), findNumsAcc_nd_nil 'R' (by decide),
    findNumsAcc_nd_nil ' ' (by decide)]
  rw [findNumsAcc_runs n hdn _ _ _]
  rw [List.nil_append]
  have hsep2 : (" KWH" : String).data = ' ' :: 'K' :: 'W' :: 'H' :: [] := rfl
  rw [hsep2]
  rw [findNumsAcc_nd_cons ' ' (by decide) n hn]
  rw [findNumsAcc_nd_nil 'K' (by decide), findNumsAcc_nd_nil 'W' (by decide),
    findNumsAcc_nd_nil 'H' (by decide)]
  unfold findNumsAcc
  simp

theorem isPrefixL_mem : ∀ (p l : List Char), isPrefixL p l = true → ∀ c ∈ p, c ∈ l := by
  intro p
  induction p with
  | nil => intro l _ c hc; exact absurd hc (List.not_mem_nil c)
  | cons x xs ih =>
    intro l hp c hc
    cases l with
    | nil => exact absurd hp (by simp [isPrefixL])
    | cons y ys =>
      unfold isPrefixL at hp
      rw [Bool.and_eq_true] at hp
      have hxy : x = y := of_decide_eq_true hp.1
      rcases List.mem_cons.mp hc with hcx | hcs
      · exact List.mem_cons.mpr (Or.inl (hcx.trans hxy))
      · exact List.mem_cons_of_mem y (ih ys hp.2 c hcs)

theorem isSubstrL_mem : ∀ (l p : List Char), isSubstrL p l = true → ∀ c ∈ p, c ∈ l := by
  intro l
  induction l with
  | nil => intro p hp c hc; exact isPrefixL_mem p [] hp c hc
  | cons y ys ih =>
    intro p hp c hc
    unfold isSubstrL at hp
    rw [Bool.or_eq_true] at hp
    rcases hp with h1 | h2
    · exact isPrefixL_mem p (y :: ys) h1 c hc
    · exact List.mem_cons_of_mem y (ih p h2 c hc)

theorem noOVER (l : List Char) (hv : 'V' ∉ l) :
    isSubstrL ['O', 'V', 'E', 'R'] l = false := by
  by_contra h
  rw [Bool.not_eq_false] at h
  exact hv (isSubstrL_mem l _ h 'V' (by decide))

/-- Claim C9: for accepted data rows, a cell `A TO B KWH` yields
`min_kwh = A`, `max_kwh = B`; a cell `OVER N KWH` yields
`min_kwh = N+1`, `max_kwh = None`; the documented concrete examples
hold; and every emitted rate carries exactly the bounds computed from
its own bracket cell. -/
theorem bracket_bounds :
    (∀ a b : List Char, a ≠ [] → b ≠ [] → a.all isDigitC = true →
      b.all isDigitC = true →
      parseBracket ⟨a ++ " TO ".data ++ b ++ " KWH".data⟩ =
        (digitsVal a, some (digitsVal b))) ∧
    (∀ n : List Char, n ≠ [] → n.all isDigitC = true →
      parseBracket ⟨"OVER ".data ++ n ++ " KWH".data⟩ = (digitsVal n + 1, none)) ∧
    parseBracket "100 TO 200 KWH" = (100, some 200) ∧
    parseBracket "OVER 900 KWH" = (901, none) ∧
    (∀ (pdf : List Page) (r : Rate), r ∈ extractRates pdf →
      (r.min_kwh, r.max_kwh) = parseBracket r.consumption_bracket) := by
  refine ⟨?_, ?_, by decide, by decide, ?_⟩
  · intro a b ha hb hda hdb
    have hV : 'V' ∉ a ++ " TO ".data ++ b ++ " KWH".data := by
      intro hx
      rcases List.mem_append.mp hx with hx | hx
      · rcases List.mem_append.mp hx with hx | hx
        · rcases List.mem_append.mp hx with hx | hx
          · have := List.all_eq_true.mp hda 'V' hx
            exact absurd this (by decide)
          · exact absurd hx (by decide)
        · have := List.all_eq_true.mp hdb 'V' hx
          exact absurd this (by decide)
      · exact absurd hx (by decide)
    unfold parseBracket
    have hdat : (⟨a ++ " TO ".data ++ b ++ " KWH".data⟩ : String).data =
        a ++ " TO ".data ++ b ++ " KWH".data := rfl
    rw [hdat]
    have hupper : pyUpperL (a ++ " TO ".data ++ b ++ " KWH".data) =
        a ++ " TO ".data ++ b ++ " KWH".data := by
      unfold pyUpperL
      rw [List.map_append, List.map_append, List.map_append]
      rw [upper_digits a hda, upper_digits b hdb]
      have h1 : List.map pyUpperC " TO ".data = " TO ".data := by decide
      have h2 : List.map pyUpperC " KWH".data = " KWH".data := by decide
      rw [h1, h2]
    rw [hupper, findNums_two a b ha hb hda hdb, noOVER _ hV]
    simp
  · intro n hn hdn
    unfold parseBracket
    have hdat : (⟨"OVER ".data ++ n ++ " KWH".data⟩ : String).data =
        "OVER ".data ++ n ++ " KWH".data := rfl
    rw [hdat]
    have hupper : pyUpperL ("OVER ".data ++ n ++ " KWH".data) =
        "OVER ".data ++ n ++ " KWH".data := by
      unfold pyUpperL
      rw [List.map_append, List.map_append]
      rw [upper_digits n hdn]
      have h1 : List.map pyUpperC "OVER ".data = "OVER ".data := by decide
      have h2 : List.map pyUpperC " KWH".data = " KWH".data := by decide
      rw [h1, h2]
    rw [hupper, findNums_over n hn hdn]
    have hsub : isSubstrL ['O', 'V', 'E', 'R']
        ("OVER ".data ++ n ++ " KWH".data) = true := by
      rw [List.append_assoc]
      have hsh : "OVER ".data ++ (n ++ " KWH".data) =
          'O' :: 'V' :: 'E' :: 'R' :: ' ' :: (n ++ " KWH".data) := rfl
      rw [hsh]
      simp [isSubstrL, isPrefixL]
    rw [hsub]
    simp
  · intro pdf r hr
    exact (extract_good pdf r hr).2.2.2

/-- Witness for C9 at the digit strings `100` and `200`. -/
theorem bracket_bounds_witness :
    parseBracket ⟨['1', '0', '0'] ++ " TO ".data ++ ['2', '0', '0'] ++ " KWH".data⟩ =
      (digitsVal ['1', '0', '0'], some (digitsVal ['2', '0', '0'])) :=
  bracket_bounds.1 ['1', '0', '0'] ['2', '0', '0'] (by decide) (by decide)
    (by decide) (by decide)

theorem retryable_branch (c : Nat) (h : retryable (.httpError c) = true) :
    c = 429 ∨ (500 ≤ c ∧ c < 600) := by
  unfold retryable at h
  rcases Bool.or_eq_true .. |>.mp h with h1 | h1
  · exact Or.inl (of_decide_eq_true h1)
  · rw [Bool.and_eq_true] at h1
    exact Or.inr ⟨of_decide_eq_true h1.1, of_decide_eq_true h1.2⟩

theorem fetchGo_succ (url : String) (retries : Nat)
    (outcomes : Nat → AttemptOutcome) (fuel attempt : Nat) (sleeps : List Nat) :
    fetchGo url retries outcomes (fuel + 1) attempt sleeps =
      match outcomes attempt with
      | .success body => ⟨.ok body, attempt + 1, sleeps⟩
      | .httpError c =>
        if c = 429 ∨ (500 ≤ c ∧ c < 600) then
          fetchGo url retries outcomes fuel (attempt + 1) (sleeps ++ [2 ^ attempt])
        else ⟨.error (.httpRaise c), attempt + 1, sleeps⟩
      | .urlError =>
        fetchGo url retries outcomes fuel (attempt + 1) (sleeps ++ [2 ^ attempt]) := rfl

theorem fetchGo_exhaust (url : String) (retries : Nat)
    (outcomes : Nat → AttemptOutcome) :
    ∀ (fuel attempt : Nat) (sleeps : List Nat),
      (∀ i, attempt ≤ i → i < attempt + fuel → retryable (outcomes i) = true) →
      fetchGo url retries outcomes fuel attempt sleeps =
        ⟨.error (.exhausted url retries), attempt + fuel,
          sleeps ++ (List.range' attempt fuel).map (2 ^ ·)⟩ := by
  intro fuel
  induction fuel with
  | zero => intro attempt sleeps _; simp [fetchGo, List.range']
  | succ fuel ih =>
    intro attempt sleeps h
    have hr : retryable (outcomes attempt) = true :=
      h attempt le_rfl (by omega)
    have hstep : ∀ (s2 : List Nat),
        fetchGo url retries outcomes fuel (attempt + 1) s2 =
          ⟨.error (.exhausted url retries), (attempt + 1) + fuel,
            s2 ++ (List.range' (attempt + 1) fuel).map (2 ^ ·)⟩ := by
      intro s2
      exact ih (attempt + 1) s2 (fun i h1 h2 => h i (by omega) (by omega))
    have hrange : List.range' attempt (fuel + 1) =
        attempt :: List.range' (attempt + 1) fuel := List.range'_succ attempt fuel 1
    cases ho : outcomes attempt with
    | success body => rw [ho] at hr; exact absurd hr (by simp [retryable])
    | httpError c =>
      rw [ho] at hr
      simp only [fetchGo_succ, ho]
      rw [if_pos (retryable_branch c hr), hstep, hrange]
      simp [List.append_assoc]
      omega
    | urlError =>
      simp only [fetchGo_succ, ho]
      rw [hstep, hrange]
      simp [List.append_assoc]
      omega

theorem fetchGo_skip (url : String) (retries : Nat)
    (outcomes : Nat → AttemptOutcome) :
    ∀ (k fuel attempt : Nat) (sleeps : List Nat), k ≤ fuel →
      (∀ i, attempt ≤ i → i < attempt + k → retryable (outcomes i) = true) →
      fetchGo url retries outcomes fuel attempt sleeps =
        fetchGo url retries outcomes (fuel - k) (attempt + k)
          (sleeps ++ (List.range' attempt k).map (2 ^ ·)) := by
  intro k
  induction k with
  | zero => intro fuel attempt sleeps _ _; simp [List.range']
  | succ k ih =>
    intro fuel attempt sleeps hk h
    cases fuel with
    | zero => omega
    | succ fuel =>
      have hr : retryable (outcomes attempt) = true :=
        h attempt le_rfl (by omega)
      have hnext : fetchGo url retries outcomes fuel (attempt + 1)
          (sleeps ++ [2 ^ attempt]) =
          fetchGo url retries outcomes (fuel - k) ((attempt + 1) + k)
            ((sleeps ++ [2 ^ attempt]) ++ (List.range' (attempt + 1) k).map (2 ^ ·)) :=
        ih fuel (attempt + 1) (sleeps ++ [2 ^ attempt]) (by omega)
          (fun i h1 h2 => h i (by omega) (by omega))
      have hrange : List.range' attempt (k + 1) =
          attempt :: List.range' (attempt + 1) k := List.range'_succ attempt k 1
      have ha : attempt + (k + 1) = (attempt + 1) + k := by omega
      have hf : fuel + 1 - (k + 1) = fuel - k := by omega
      cases ho : outcomes attempt with
      | success body => rw [ho] at hr; exact absurd hr (by simp [retryable])
      | httpError c =>
        rw [ho] at hr
        simp only [fetchGo_succ, ho]
        rw [if_pos (retryable_branch c hr), hnext, hrange, ha, hf]
        simp [List.append_assoc]
      | urlError =>
        simp only [fetchGo_succ, ho]
        rw [hnext, hrange, ha, hf]
        simp [List.append_assoc]

/-- Claim C4: the Fetch Client retries exactly on HTTP 429 / 5xx /
connection errors with `2^i`-second sleeps; any other HTTP error is
raised immediately after the current attempt, with no further sleep;
retryable failures on every attempt exhaust all `max_attempts`
attempts and fail with an error naming the URL and the attempt count;
and an always-503 URL with 3 attempts sleeps exactly 1s, 2s, 4s. -/
theorem fetch_retry_policy :
    (∀ (url : String) (retries : Nat) (outcomes : Nat → AttemptOutcome),
      (∀ i, i < retries → retryable (outcomes i) = true) →
      fetchWithRetry url retries outcomes =
        ⟨.error (.exhausted url retries), retries, (List.range retries).map (2 ^ ·)⟩) ∧
    (∀ (url : String) (retries : Nat) (outcomes : Nat → AttemptOutcome) (j c : Nat),
      j < retries →
      (∀ i, i < j → retryable (outcomes i) = true) →
      outcomes j = .httpError c →
      ¬(c = 429 ∨ (500 ≤ c ∧ c < 600)) →
      fetchWithRetry url retries outcomes =
        ⟨.error (.httpRaise c), j + 1, (List.range j).map (2 ^ ·)⟩) ∧
    fetchWithRetry "http://u" 3 (fun _ => .httpError 503) =
      ⟨.error (.exhausted "http://u" 3), 3, [1, 2, 4]⟩ := by
  refine ⟨?_, ?_, by decide⟩
  · intro url retries outcomes h
    unfold fetchWithRetry
    rw [fetchGo_exhaust url retries outcomes retries 0 []
      (fun i h1 h2 => h i (by omega))]
    rw [List.range_eq_range']
    simp
  · intro url retries outcomes j c hj hpre hout hnr
    unfold fetchWithRetry
    rw [fetchGo_skip url retries outcomes j retries 0 [] (by omega)
      (fun i h1 h2 => hpre i (by omega))]
    obtain ⟨m, hm⟩ : ∃ m, retries - j = m + 1 := ⟨retries - j - 1, by omega⟩
    rw [hm]
    simp only [fetchGo_succ, Nat.zero_add, List.nil_append, hout]
    rw [if_neg hnr, List.range_eq_range']

/-- Witness for C4: a first-attempt connection error followed by an
HTTP 404 stops after the second attempt with one 1-second sleep. -/
theorem fetch_retry_policy_witness :
    fetchWithRetry "u" 2 (fun i => if i = 0 then .urlError else .httpError 404) =
      ⟨.error (.httpRaise 404), 2, (List.range 1).map (2 ^ ·)⟩ :=
  fetch_retry_policy.2.1 "u" 2 (fun i => if i = 0 then .urlError else .httpError 404)
    1 404 (by decide) (by decide) (by decide) (by decide)

/-- Claim C2 counterexample: the Feed Locator returns a discovery item
whose month key is unresolved (`None`) when neither the publication
date nor the title yields a month-year phrase — the item is not
skipped. -/
theorem feed_null_month_cex :
    fetchLatestRssItem (some feedC2) webC2 =
      .ok (some ⟨"http://x/a.pdf", "http://x/page", none,
        "Summary of Schedule of Rates"⟩) := by decide

theorem processNode_month (web : String → Option String) (startM endM : String)
    (s : CrawlSt) (href : String)
    (hs : ∀ it ∈ s.items, it.month_key_str.isSome = true) :
    ∀ it ∈ (processNode web startM endM s href).items,
      it.month_key_str.isSome = true := by
  simp only [processNode, rangeStep]
  split
  · exact hs
  · split
    · exact hs
    · split
      · exact hs
      · split
        · exact hs
        · split
          · exact hs
          · split
            · exact hs
            · split
              · exact hs
              · intro it hit
                rcases List.mem_append.mp hit with h | h
                · exact hs it h
                · rw [List.mem_singleton.mp h]; rfl

theorem processLinks_month (web : String → Option String) (startM endM : String) :
    ∀ (links : List String) (s : CrawlSt),
      (∀ it ∈ s.items, it.month_key_str.isSome = true) →
      ∀ it ∈ (processLinks web startM endM links s).items,
        it.month_key_str.isSome = true := by
  intro links
  induction links with
  | nil => intro s hs; exact hs
  | cons h t ih =>
    intro s hs
    show ∀ it ∈ (if s.stop = true then s
      else processLinks web startM endM t (processNode web startM endM s h)).items, _
    split
    · exact hs
    · exact ih _ (processNode_month web startM endM s h hs)

theorem crawlLoop_month (web : String → Option String) (startM endM : String) :
    ∀ (fuel page : Nat) (s : CrawlSt),
      (∀ it ∈ s.items, it.month_key_str.isSome = true) →
      ∀ it ∈ (crawlLoop web startM endM fuel page s).items,
        it.month_key_str.isSome = true := by
  intro fuel
  induction fuel with
  | zero => intro page s hs; exact hs
  | succ fuel ih =>
    intro page s hs
    simp only [crawlLoop]
    split
    · exact hs
    · split
      · exact hs
      · split
        · exact hs
        · exact ih _ _ (processLinks_month web startM endM _ _ hs)

/-- Claim C2 (amended): every discovery item returned by the Archive
Crawler carries a resolved, non-null month key; the Feed Locator,
however, returns its item even when the month key could not be
resolved (see the counterexample). -/
theorem archive_items_month_resolved (web : String → Option String)
    (startM endM : String) (fuel : Nat) :
    ∀ it ∈ fetchHistoricalArchiveItems web startM endM fuel,
      it.month_key_str.isSome = true :=
  crawlLoop_month web startM endM fuel 0 initCrawl
    (fun it hit => absurd hit (List.not_mem_nil it))

/-- Witness for the amended C2 theorem at the concrete crawl. -/
theorem archive_items_month_resolved_witness :
    ((fetchHistoricalArchiveItems webC3 "2024-02" "2024-12" 5).headI).month_key_str.isSome
      = true :=
  archive_items_month_resolved webC3 "2024-02" "2024-12" 5
    (fetchHistoricalArchiveItems webC3 "2024-02" "2024-12" 5).headI (by decide)

theorem takeWhile_all {α : Type} (p : α → Bool) :
    ∀ l : List α, (∀ x ∈ l, p x = true) → l.takeWhile p = l := by
  intro l
  induction l with
  | nil => intro _; rfl
  | cons x xs ih =>
    intro h
    simp [List.takeWhile_cons, h x (List.mem_cons_self x xs),
      ih (fun y hy => h y (List.mem_cons_of_mem x hy))]

theorem takeWhile_append_last {α : Type} (p : α → Bool) (e0 : α)
    (he : p e0 = false) :
    ∀ E : List α, (∀ x ∈ E, p x = true) → (E ++ [e0]).takeWhile p = E := by
  intro E
  induction E with
  | nil => intro _; simp [List.takeWhile_cons, he]
  | cons x xs ih =>
    intro h
    rw [List.cons_append]
    simp [List.takeWhile_cons, h x (List.mem_cons_self x xs),
      ih (fun y hy => h y (List.mem_cons_of_mem x hy))]

theorem listLtCh_trans :
    ∀ a b c : List Char, listLtCh a b = true → listLtCh b c = true →
      listLtCh a c = true := by
  intro a
  induction a with
  | nil =>
    intro b c h1 h2
    cases c with
    | nil =>
      cases b with
      | nil => simp [listLtCh] at h1
      | cons bh bt => simp [listLtCh] at h2
    | cons ch ct => simp [listLtCh]
  | cons ah as2 ih =>
    intro b c h1 h2
    cases b with
    | nil => simp [listLtCh] at h1
    | cons bh bt =>
      cases c with
      | nil => simp [listLtCh] at h2
      | cons ch ct =>
        simp only [listLtCh] at h1 h2 ⊢
        by_cases hab : ah.toNat < bh.toNat
        · by_cases hbc : bh.toNat < ch.toNat
          · rw [if_pos (show ah.toNat < ch.toNat by omega)]
          · by_cases hcb : ch.toNat < bh.toNat
            · rw [if_neg hbc, if_pos hcb] at h2
              exact absurd h2 (by simp)
            · rw [if_pos (show ah.toNat < ch.toNat by omega)]
        · by_cases hba : bh.toNat < ah.toNat
          · rw [if_neg hab, if_pos hba] at h1
            exact absurd h1 (by simp)
          · rw [if_neg hab, if_neg hba] at h1
            by_cases hbc : bh.toNat < ch.toNat
            · rw [if_pos (show ah.toNat < ch.toNat by omega)]
            · by_cases hcb : ch.toNat < bh.toNat
              · rw [if_neg hbc, if_pos hcb] at h2
                exact absurd h2 (by simp)
              · rw [if_neg hbc, if_neg hcb] at h2
                rw [if_neg (show ¬ah.toNat < ch.toNat by omega),
                  if_neg (show ¬ch.toNat < ah.toNat by omega)]
                exact ih bt ct h1 h2

theorem strLt_trans {a b c : String} (h1 : strLt a b = true)
    (h2 : strLt b c = true) : strLt a c = true :=
  listLtCh_trans a.data b.data c.data h1 h2

theorem rangeStep_inv (startM endM : String)
    (hse : strLt endM startM = false)
    (s : CrawlSt) (cand : DiscoveryItem) (mk pdf_url : String)
    (hm : monthOf cand = mk) (hstop : s.stop = false)
    (hitems : s.items = s.events.filter (fun e => !(strLt endM (monthOf e))))
    (hall : ∀ e ∈ s.events, strLt (monthOf e) startM = false) :
    CrawlInv startM endM (rangeStep startM endM s cand mk pdf_url) := by
  unfold rangeStep
  by_cases hgt : strLt endM mk = true
  · rw [if_pos hgt]
    refine Or.inl ⟨hstop, ?_, ?_⟩
    · show s.items = List.filter _ (s.events ++ [cand])
      rw [List.filter_append, hitems]
      have hc : (!(strLt endM (monthOf cand))) = false := by
        rw [hm, hgt, Bool.not_true]
      rw [List.filter_singleton, hc]
      simp
    · intro e he
      rcases List.mem_append.mp he with h | h
      · exact hall e h
      · rw [List.mem_singleton.mp h]
        show strLt (monthOf cand) startM = false
        rw [hm]
        by_contra hx
        rw [Bool.not_eq_false] at hx
        have := strLt_trans hgt hx
        rw [hse] at this
        exact absurd this (by simp)
  · rw [Bool.not_eq_true] at hgt
    rw [if_neg (by simp [hgt])]
    by_cases hlt : strLt mk startM = true
    · rw [if_pos hlt]
      exact Or.inr ⟨rfl, s.events, cand, rfl, by rw [hm]; exact hlt, hitems, hall⟩
    · rw [Bool.not_eq_true] at hlt
      rw [if_neg (by simp [hlt])]
      refine Or.inl ⟨hstop, ?_, ?_⟩
      · show s.items ++ [cand] = List.filter _ (s.events ++ [cand])
        rw [List.filter_append, hitems]
        have hc : (!(strLt endM (monthOf cand))) = true := by
          rw [hm, hgt, Bool.not_false]
        rw [List.filter_singleton, hc]
        simp
      · intro e he
        rcases List.mem_append.mp he with h | h
        · exact hall e h
        · rw [List.mem_singleton.mp h]
          show strLt (monthOf cand) startM = false
          rw [hm]
          exact hlt

theorem processNode_inv (web : String → Option String) (startM endM : String)
    (hse : strLt endM startM = false) (s : CrawlSt) (href : String)
    (hstop : s.stop = false) (hI : CrawlInv startM endM s) :
    CrawlInv startM endM (processNode web startM endM s href) := by
  obtain ⟨-, hitems, hall⟩ | ⟨h1, -⟩ := hI
  case inr => rw [hstop] at h1; exact absurd h1 (by simp)
  simp only [processNode]
  split
  · exact Or.inl ⟨hstop, hitems, hall⟩
  · split
    · exact Or.inl ⟨hstop, hitems, hall⟩
    · split
      · exact Or.inl ⟨hstop, hitems, hall⟩
      · split
        · exact Or.inl ⟨hstop, hitems, hall⟩
        · split
          · exact Or.inl ⟨hstop, hitems, hall⟩
          · exact rangeStep_inv startM endM hse _ _ _ _ rfl hstop hitems hall

theorem processLinks_inv (web : String → Option String) (startM endM : String)
    (hse : strLt endM startM = false) :
    ∀ (links : List String) (s : CrawlSt), CrawlInv startM endM s →
      CrawlInv startM endM (processLinks web startM endM links s) := by
  intro links
  induction links with
  | nil => intro s hI; exact hI
  | cons h t ih =>
    intro s hI
    show CrawlInv startM endM (if s.stop = true then s
      else processLinks web startM endM t (processNode web startM endM s h))
    split
    · exact hI
    · rename_i hstop
      rw [Bool.not_eq_true] at hstop
      exact ih _ (processNode_inv web startM endM hse s h hstop hI)

theorem crawlLoop_inv (web : String → Option String) (startM endM : String)
    (hse : strLt endM startM = false) :
    ∀ (fuel page : Nat) (s : CrawlSt), CrawlInv startM endM s →
      CrawlInv startM endM (crawlLoop web startM endM fuel page s) := by
  intro fuel
  induction fuel with
  | zero => intro page s hI; exact hI
  | succ fuel ih =>
    intro page s hI
    simp only [crawlLoop]
    split
    · exact hI
    · have hI1 : CrawlInv startM endM { s with trace := s.trace ++ [archiveUrl page] } := by
        obtain ⟨h1, h2, h3⟩ | ⟨h1, E, e0, hev, he0, hit, hall⟩ := hI
        · exact Or.inl ⟨h1, h2, h3⟩
        · exact Or.inr ⟨h1, E, e0, hev, he0, hit, hall⟩
      split
      · exact hI1
      · split
        · exact hI1
        · exact ih _ _ (processLinks_inv web startM endM hse _ _ hI1)

/-- Claim C3: for `start_month <= end_month` the crawl returns, in
discovery order, exactly the resolved candidates that are in range
and encountered before the first below-range candidate; and on the
concrete 2024-03 / 2024-02 / 2024-01 archive with
`start_month = 2024-02`, it returns exactly 2024-03 and 2024-02,
halting with no further page fetches after observing 2024-01. -/
theorem crawl_range_characterization :
    (∀ (web : String → Option String) (startM endM : String) (fuel : Nat),
      strLe startM endM = true →
      (crawlFull web startM endM fuel).items =
        ((crawlFull web startM endM fuel).events.takeWhile
            (fun e => !(strLt (monthOf e) startM))).filter
          (fun e => !(strLt endM (monthOf e)))) ∧
    ((crawlFull webC3 "2024-02" "2024-12" 5).items.map
        (fun i => i.month_key_str) = [some "2024-03", some "2024-02"] ∧
      (crawlFull webC3 "2024-02" "2024-12" 5).trace =
        [archiveUrl 0, "https://company.meralco.com.ph/node/1",
         "https://company.meralco.com.ph/node/2",
         "https://company.meralco.com.ph/node/3"] ∧
      (crawlFull webC3 "2024-02" "2024-12" 5).stop = true ∧
      (crawlFull webC3 "2024-02" "2024-12" 5).events.map
        (fun i => i.month_key_str) =
          [some "2024-03", some "2024-02", some "2024-01"]) := by
  constructor
  · intro web startM endM fuel hse
    unfold crawlFull
    have hse2 : strLt endM startM = false := by
      unfold strLe at hse
      rwa [Bool.not_eq_true'] at hse
    have hInit : CrawlInv startM endM initCrawl :=
      Or.inl ⟨rfl, rfl, fun e he => absurd he (List.not_mem_nil e)⟩
    have hF := crawlLoop_inv web startM endM hse2 fuel 0 initCrawl hInit
    obtain ⟨-, h2, h3⟩ | ⟨-, E, e0, hev, he0, hit, hall⟩ := hF
    · rw [takeWhile_all _ _ (fun x hx => by simp [h3 x hx])]
      exact h2
    · rw [hev, takeWhile_append_last _ _ (by simp [he0]) E
        (fun x hx => by simp [hall x hx])]
      exact hit
  · exact ⟨by decide, by decide, by decide, by decide⟩

/-- Witness for C3's universally quantified characterization at the
concrete crawl. -/
theorem crawl_range_characterization_witness :
    (crawlFull webC3 "2024-02" "2024-12" 5).items =
      ((crawlFull webC3 "2024-02" "2024-12" 5).events.takeWhile
          (fun e => !(strLt (monthOf e) "2024-02"))).filter
        (fun e => !(strLt "2024-12" (monthOf e))) :=
  crawl_range_characterization.1 webC3 "2024-02" "2024-12" 5 (by decide)

end RatEval

end Meralco
